import Mathlib

/-!
Verification of the grokgates terminal front end (`static/ascii_animator.js`).

The file shallowly embeds the two engines the specification describes:
the `ASCIIAnimator` effect library / animation state machine, and the
conversation reconciliation entry point `updateCurrentConversation`
together with its surrounding module state (the `currentMessages` map,
`window.processedMessageIds`, `window.currentConversationId` and the two
localStorage keys).

Modelling conventions:
* a grid row (a JS string of characters) is a `List Char`;
* `Math.random()`-derived choices are passed in as explicit parameters
  (integer draws as `Fin n`, per-character coin flips as `Bool`-valued
  oracles, the sine sample feeding `pulseEffect` as a rational in [-1,1]);
* `Math.floor(Math.sin ...)`-derived integer offsets are passed as `Int`
  parameters, with their numeric range recorded as hypotheses where a
  theorem needs it;
* DOM state that the reconciler reads back (the `.msg-content` text of each
  message div) is part of the explicit state, as is localStorage.
-/

namespace Grokgates

/-- A fixed-width text row of the art grid: one JS string, viewed as its
character list. -/
abbrev Row := List Char

/-- Models `' '.repeat(width)`: a blank row of the given width. -/
def blankRow (width : Nat) : Row := List.replicate width ' '

/-- Models the horizontal shift idiom used verbatim by `waveEffect` and
`shakeEffect` (lines 96-103 and 172-179 of `ascii_animator.js`):
`offset > 0` gives `' '.repeat(offset) + line.slice(0, -offset)`,
`offset < 0` gives `line.slice(-offset) + ' '.repeat(-offset)`,
and `offset = 0` leaves the line unchanged.  JS `slice(0, -o)` drops the
last `o` characters (empty when `o` exceeds the length), and `slice(k)`
drops the first `k`. -/
def shiftLine (line : Row) (offset : Int) : Row :=
  if 0 < offset then
    List.replicate offset.toNat ' ' ++ line.take (line.length - offset.toNat)
  else if offset < 0 then
    line.drop (-offset).toNat ++ List.replicate (-offset).toNat ' '
  else
    line

/-- Models the two-branch variant of the same shift idiom used by
`glitchEffect` (lines 199-203) and `danceEffect` (lines 236-240), where the
`else` branch also covers `offset = 0` (then `slice(-0) = slice(0)` is the
whole line and `' '.repeat(0)` is empty). -/
def shiftLine2 (line : Row) (offset : Int) : Row :=
  if 0 < offset then
    List.replicate offset.toNat ' ' ++ line.take (line.length - offset.toNat)
  else
    line.drop (-offset).toNat ++ List.replicate (-offset).toNat ' '

/-- Models `waveEffect(frame)` (lines 90-108).  For the given frame the
per-row offset `Math.floor(Math.sin(y*0.2 + frame*0.2) * 4)` is supplied as
the oracle `osc : Nat → Int`; the sine bound keeps it in `[-4, 4]`, which
theorems take as a hypothesis. -/
def waveEffect (lines : List Row) (osc : Nat → Int) : List Row :=
  lines.enum.map (fun p => shiftLine p.2 (osc p.1))

/-- Per-row random data consumed by `glitchEffect` for one frame:
whether `Math.random() < glitchIntensity * 0.1` selected the row,
whether the 50% coin chose the shift branch, the shift offset
`Math.floor(Math.random() * 11) - 5`, and the per-character corruption
coin and symbol pick. -/
structure GlitchRow where
  glitched : Bool
  shiftMode : Bool
  offset : Int
  corrupt : Nat → Bool
  sym : Nat → Fin 8

/-- The fixed corruption alphabet `'!@#$%^&*'` of `glitchEffect`. -/
def glitchSymbols : List Char := [ '!', '@', '#', '$', '%', '^', '&', '*' ]

/-- Models `glitchEffect(frame)` (lines 186-223) with all random draws for
the frame supplied by the per-row oracle `choice`. -/
def glitchEffect (lines : List Row) (choice : Nat → GlitchRow) : List Row :=
  lines.enum.map (fun p =>
    let c := choice p.1
    if c.glitched then
      if c.shiftMode then
        shiftLine2 p.2 c.offset
      else
        p.2.enum.map (fun q =>
          if q.2 ≠ ' ' ∧ c.corrupt q.1 then glitchSymbols.get (c.sym q.1) else q.2)
    else p.2)

/-- Models `bounceEffect(frame)` (lines 141-155): prepend
`bounceHeight = Math.abs(Math.floor(Math.sin(frame*0.2)*5))` blank rows
(supplied as `b`), then `slice(0, height)`. -/
def bounceEffect (lines : List Row) (height width : Nat) (b : Nat) : List Row :=
  (List.replicate b (blankRow width) ++ lines).take height

/-- Models `shakeX = Math.floor(Math.random()*5) - 2` (line 161): the
horizontal jitter computed from the uniform draw `Math.floor(Math.random()*5)`. -/
def shakeXOf (r : Fin 5) : Int := (r : Int) - 2

/-- Models `shakeY = Math.floor(Math.random()*3) - 1` (line 162): the
vertical jitter computed from the uniform draw `Math.floor(Math.random()*3)`. -/
def shakeYOf (r : Fin 3) : Int := (r : Int) - 1

/-- Models `shakeEffect(frame)` (lines 157-184): when `shakeY > 0` prepend
that many blank rows, shift every row horizontally by `shakeX` with the
same rule as `waveEffect`, and `slice(0, height)`. -/
def shakeEffect (lines : List Row) (height width : Nat) (rx : Fin 5) (ry : Fin 3) :
    List Row :=
  let shakeX := shakeXOf rx
  let shakeY := shakeYOf ry
  let pre := if 0 < shakeY then List.replicate shakeY.toNat (blankRow width) else []
  (pre ++ lines.map (fun line => shiftLine line shakeX)).take height

/-- Models `matrixEffect(frame)` (lines 253-269): each non-space character
is replaced, when the oracle `rep` fires, by `'0'` or `'1'` according to the
50/50 coin `bit` (`true` picks `'0'`, matching `Math.random() < 0.5 ? '0' : '1'`). -/
def matrixEffect (lines : List Row) (rep bit : Nat → Nat → Bool) : List Row :=
  lines.enum.map (fun p =>
    p.2.enum.map (fun q =>
      if q.2 ≠ ' ' ∧ rep p.1 q.1 then (if bit p.1 q.1 then '0' else '1') else q.2))

/-- The glyph set `'oO0@*'` whose members `blinkEffect` hides. -/
def blinkGlyphs : List Char := [ 'o', 'O', '0', '@', '*' ]

/-- Models `blinkEffect(frame)` (lines 271-288): `blinkOn = (frame % 30) > 5`;
when not on, every character of the glyph set becomes `'-'`. -/
def blinkEffect (lines : List Row) (frame : Nat) : List Row :=
  let blinkOn : Bool := 5 < frame % 30
  lines.map (fun line =>
    line.map (fun c => if c ∈ blinkGlyphs ∧ blinkOn = false then '-' else c))

/-- Models `pulseEffect(frame)` (lines 110-139).  The sine sample
`Math.sin(frame * 0.1)` is supplied as the exact fraction
`sinNum / sinDen` (so `scale = 1 + (sinNum/sinDen)/10`, and
`scale > 1` exactly when `0 < sinNum`); the per-character duplication coin
of the stretch branch is `dup row idx`, the per-row survival coin of the
shrink branch (`Math.random() > (1 - scale)`) is `keep row`.
`Math.floor((height * (scale - 1)) / 2) = ⌊height * sinNum / (20 * sinDen)⌋`
is computed with integer floor division.  When `scale > 1` the function
prepends that many blank rows and truncates each stretched row to `width`;
when `scale ≤ 1` it keeps each row only when its coin fired — note that
nothing clips the result back to `height` rows in the stretch branch. -/
def pulseEffect (lines : List Row) (height width : Nat) (sinNum : Int)
    (sinDen : Nat) (dup : Nat → Nat → Bool) (keep : Nat → Bool) : List Row :=
  let scaleAboveOne : Bool := 0 < sinNum
  let pre : List Row :=
    if scaleAboveOne then
      List.replicate (Int.fdiv ((height : Int) * sinNum) (20 * (sinDen : Int))).toNat
        (blankRow width)
    else []
  let body : List Row := lines.enum.filterMap (fun p =>
    if scaleAboveOne then
      some (((p.2.enum.flatMap (fun q => if dup p.1 q.1 then [q.2, q.2] else [q.2]))).take width)
    else
      if keep p.1 then some p.2 else none)
  pre ++ body

/-- Models `danceEffect(frame)` (lines 225-251): `currentMove =
floor(frame/20) % 4` selects between a horizontal sway (offset
`Math.floor(Math.sin(frame*0.3)*5)`, supplied as `sway`, applied with the
two-branch shift), `bounceEffect`, `waveEffect` and `shakeEffect`; the
delegated effects receive their own random data. -/
def danceEffect (lines : List Row) (height width : Nat) (frame : Nat)
    (sway : Int) (b : Nat) (osc : Nat → Int) (rx : Fin 5) (ry : Fin 3) : List Row :=
  let currentMove := (frame / 20) % 4
  if currentMove = 0 then
    lines.map (fun line => shiftLine2 line sway)
  else if currentMove = 1 then
    bounceEffect lines height width b
  else if currentMove = 2 then
    waveEffect lines osc
  else
    shakeEffect lines height width rx ry

/-- One frame's worth of random data for `animate`'s effect switch
(lines 46-74): everything the stochastic effects would draw from
`Math.random()` or sample from `Math.sin` during that frame. -/
structure EffectRandomness where
  osc : Nat → Int
  sinNum : Int
  sinDen : Nat
  dup : Nat → Nat → Bool
  keep : Nat → Bool
  rx : Fin 5
  ry : Fin 3
  glitch : Nat → GlitchRow
  mrep : Nat → Nat → Bool
  mbit : Nat → Nat → Bool

/-- State of the `ASCIIAnimator` class (lines 3-16) together with the
`#ascii-art` element it renders into: `originalLines` is
`asciiArt.trim().split('\n')`, `width` the maximum row length, `lines` the
rows right-padded with spaces to `width`, and `displayed` the rows the DOM
currently shows (`displayFrame`, lines 83-88). -/
structure ASCIIAnimator where
  originalLines : List Row
  height : Nat
  width : Nat
  lines : List Row
  animationFrame : Nat
  currentAnimation : Option String
  displayed : List Row
deriving DecidableEq

/-- Models `line.padEnd(width, ' ')`. -/
def padEnd (line : Row) (width : Nat) : Row :=
  line ++ List.replicate (width - line.length) ' '

/-- Models the `ASCIIAnimator` constructor (lines 4-16) applied to the
fetched art string, followed by the initial
`displayFrame(asciiAnimator.lines)` call of the startup handler (line 304). -/
def mkASCIIAnimator (asciiArt : String) : ASCIIAnimator :=
  let originalLines : List Row := (asciiArt.trim.splitOn "\n").map String.toList
  let height := originalLines.length
  let width := (originalLines.map List.length).foldr max 0
  let lines := originalLines.map (fun line => padEnd line width)
  { originalLines := originalLines, height := height, width := width,
    lines := lines, animationFrame := 0, currentAnimation := none,
    displayed := lines }

/-- Models `displayFrame(lines)` (lines 83-88): write the frame into the
`#ascii-art` element. -/
def displayFrame (a : ASCIIAnimator) (frame : List Row) : ASCIIAnimator :=
  { a with displayed := frame }

/-- Models one synchronous execution of `frame()` inside `animate`
(lines 39-80), as performed immediately when `animate()` is first called:
`deltaTime` is still 0, so `this.animationFrame = Math.floor(0 / 50) = 0`,
and the switch renders the current effect at frame 0.  The deterministic
sine samples at frame 0 are exact (`Math.sin(0) = 0` gives bounce height 0
and dance sway 0); the stochastic draws come from `r`. -/
def animateOnce (a : ASCIIAnimator) (r : EffectRandomness) : ASCIIAnimator :=
  match a.currentAnimation with
  | none => a
  | some t =>
    let a1 := { a with animationFrame := 0 }
    let animatedLines :=
      if t = "wave" then waveEffect a1.lines r.osc
      else if t = "pulse" then
        pulseEffect a1.lines a1.height a1.width r.sinNum r.sinDen r.dup r.keep
      else if t = "bounce" then bounceEffect a1.lines a1.height a1.width 0
      else if t = "shake" then shakeEffect a1.lines a1.height a1.width r.rx r.ry
      else if t = "glitch" then glitchEffect a1.lines r.glitch
      else if t = "dance" then danceEffect a1.lines a1.height a1.width 0 0 0 r.osc r.rx r.ry
      else if t = "matrix" then matrixEffect a1.lines r.mrep r.mbit
      else if t = "blink" then blinkEffect a1.lines 0
      else a1.lines
    displayFrame a1 animatedLines

/-- Models `stopAnimation()` (lines 25-32): cancel the pending frame,
clear `currentAnimation`, and `displayFrame(this.lines)`. -/
def stopAnimation (a : ASCIIAnimator) : ASCIIAnimator :=
  displayFrame { a with currentAnimation := none } a.lines

/-- Models `startAnimation(animationType)` (lines 18-23): `stopAnimation()`,
record the new animation, reset the frame counter, and run `animate()`
(whose first `frame()` executes synchronously). -/
def startAnimation (a : ASCIIAnimator) (animationType : String)
    (r : EffectRandomness) : ASCIIAnimator :=
  animateOnce
    { stopAnimation a with currentAnimation := some animationType, animationFrame := 0 }
    r

/-! ## The conversation reconciler -/

/-- An incoming message of a snapshot: `{agent, timestamp, content}`.
The content may be absent (`msg.content || ''` is applied where the code
reads it). -/
structure Msg where
  agent : String
  timestamp : Nat
  content : Option String
deriving DecidableEq

/-- Models the composite key `` `${msg.agent}-${msg.timestamp}` `` built at
lines 550 and 592. -/
def msgKey (m : Msg) : String := m.agent ++ "-" ++ toString m.timestamp

/-- The current conversation carried by a snapshot: `{id, messages}`.
`id` is `none` when the field is absent. -/
structure Conversation where
  id : Option String
  messages : List Msg
deriving DecidableEq

/-- A rendered message div as created at lines 556-575: the header spans
(agent label and locale time display), set once at creation, and the
`.msg-content` text, which later updates may replace. -/
structure MsgNode where
  agentLabel : String
  timeLabel : String
  content : String
deriving DecidableEq

/-- Models the `displayAgent` selection at line 563. -/
def displayAgent (agent : String) : String :=
  if agent = "OBSERVER" then "☸ OBSERVER"
  else if agent = "SYSTEM" then "▲ SYSTEM"
  else "◢◤ EGO"

/-- Models `new Date(msg.timestamp).toLocaleTimeString()` (line 567)
abstractly: the locale rendering is replaced by the decimal rendering of
the timestamp.  No claim below depends on the exact text, only on the fact
that it is computed once, at node creation. -/
def timeLabelOf (t : Nat) : String := toString t

/-- The mutable state surrounding `updateCurrentConversation`:
`dom` is the ordered list of message divs inside `#current-conversation`
(keyed by element id), `placeholderShown` whether the AWAITING DIALOGUE
placeholder markup is currently the pane's content, `currentMessages` the
`currentMessages` map (insertion-ordered, storing the message as first
seen), `processedIds` the in-memory `window.processedMessageIds` set,
`currentConversationId` the in-memory `window.currentConversationId`, and
`storedProcessed` / `storedConvId` the two localStorage keys
(`grokgates-processed-messages`, parsed, and
`grokgates-current-conversation`). -/
@[ext]
structure AppState where
  placeholderShown : Bool
  dom : List (String × MsgNode)
  currentMessages : List (String × Msg)
  processedIds : List String
  currentConversationId : Option String
  storedProcessed : Option (List String)
  storedConvId : Option String
deriving DecidableEq

/-- Models the page-load initialisation at lines 410-412: the processed-id
set and current conversation id are read from localStorage; the message
map and the conversation pane start empty. -/
def initialState (savedProcessed : Option (List String))
    (savedConv : Option String) : AppState :=
  { placeholderShown := false, dom := [], currentMessages := [],
    processedIds := savedProcessed.getD [],
    currentConversationId := savedConv,
    storedProcessed := savedProcessed, storedConvId := savedConv }

/-- Models the empty-conversation branch (lines 522-530): show the
AWAITING DIALOGUE placeholder, clear `currentMessages` and the in-memory
processed-id set, and return — localStorage and the remembered
conversation id are left untouched. -/
def clearForEmpty (s : AppState) : AppState :=
  { s with placeholderShown := true, dom := [], currentMessages := [],
           processedIds := [] }

/-- Models the new-conversation test at line 533:
`conversation.id && window.currentConversationId !== conversation.id`
(a falsy id — absent or empty — never triggers a reset). -/
def resetCond (s : AppState) (c : Conversation) : Bool :=
  match c.id with
  | some cid => cid ≠ "" && s.currentConversationId ≠ some cid
  | none => false

/-- Models the reset block at lines 534-544: wipe the pane, both in-memory
collections, record the new id, and persist the new id together with an
empty processed list. -/
def resetForConversation (s : AppState) (cid : String) : AppState :=
  { s with dom := [], placeholderShown := false, currentMessages := [],
           processedIds := [],
           currentConversationId := some cid,
           storedConvId := some cid, storedProcessed := some [] }

/-- Replaces the `.msg-content` text of the first DOM node with the given
element id (models `document.getElementById(msgId)` followed by
`cont.textContent = newText`, lines 579-585). -/
def setNodeContent (dom : List (String × MsgNode)) (k : String) (c : String) :
    List (String × MsgNode) :=
  match dom with
  | [] => []
  | (k1, n) :: rest =>
      if k1 = k then (k1, { n with content := c }) :: rest
      else (k1, n) :: setNodeContent rest k c

/-- The message div built by the unseen-message branch (lines 556-574):
header spans from the agent and timestamp, initial content
`msg.content || ''`. -/
def createdNode (m : Msg) : MsgNode :=
  { agentLabel := displayAgent m.agent, timeLabel := timeLabelOf m.timestamp,
    content := m.content.getD "" }

/-- Models the body of the `msgs.forEach` merge loop (lines 549-589) for a
single message.  The returned flag records whether the iteration mutated
the pane (appended a new node or replaced a content text).  When the key is
unseen a div is appended with header and initial content; when it is seen
the content is replaced only if `newText.length >= oldText.length` and the
text actually changed.  The `dom` lookup mirrors `getElementById`; a state
in which the map has the key but the pane does not would make the original
code throw, and is left unchanged here. -/
def processMsg (s : AppState) (m : Msg) : AppState × Bool :=
  let msgId := msgKey m
  if (s.currentMessages.find? (fun p => p.1 == msgId)).isSome then
    match s.dom.find? (fun p => p.1 == msgId) with
    | some (_, node) =>
        let newText := m.content.getD ""
        let oldText := node.content
        if oldText.length ≤ newText.length ∧ newText ≠ oldText then
          ({ s with dom := setNodeContent s.dom msgId newText }, true)
        else (s, false)
    | none => (s, false)
  else
    ({ s with currentMessages := s.currentMessages ++ [(msgId, m)],
              dom := s.dom ++ [(msgId, createdNode m)] }, true)

/-- Folds `processMsg` over the snapshot's message array in order,
accumulating the mutation flag. -/
def mergeMsgs (s : AppState) (ms : List Msg) : AppState × Bool :=
  ms.foldl (fun acc m =>
    let r := processMsg acc.1 m
    (r.1, acc.2 || r.2)) (s, false)

/-- Models the cleanup block at lines 591-604: every `currentMessages` key
absent from the snapshot's key set is deleted from the map, deleted from
the in-memory processed-id set, and its div removed — localStorage is not
touched (line 606: "No localStorage syncing"). -/
def gcStep (s : AppState) (ms : List Msg) : AppState :=
  let validIds := ms.map msgKey
  let toRemove := (s.currentMessages.map Prod.fst).filter
    (fun k => decide (k ∉ validIds))
  { s with
      currentMessages := s.currentMessages.filter (fun p => decide (p.1 ∈ validIds)),
      processedIds := s.processedIds.filter (fun k => decide (k ∉ toRemove)),
      dom := s.dom.filter (fun p => decide (p.1 ∉ toRemove)) }

/-- Models one call of `updateCurrentConversation(conversation)`
(lines 521-607), returning the new state together with a flag telling
whether the merge loop appended a node or replaced a content text. -/
def updateCurrentConversation (s : AppState) (conv : Option Conversation) :
    AppState × Bool :=
  match conv with
  | none => (clearForEmpty s, false)
  | some c =>
    if c.messages = [] then (clearForEmpty s, false)
    else
      let s1 := if resetCond s c then resetForConversation s (c.id.getD "") else s
      let merged := mergeMsgs s1 c.messages
      (gcStep merged.1 c.messages, merged.2)

/-- Composite keys of the snapshot's current message set, as used by the
cleanup block (`validMsgIds`, line 592); empty when the conversation is
absent or empty. -/
def convKeys (conv : Option Conversation) : List String :=
  match conv with
  | none => []
  | some c => c.messages.map msgKey

/-- Whether the given call performs the full new-conversation reset. -/
def appliesReset (s : AppState) (conv : Option Conversation) : Bool :=
  match conv with
  | none => false
  | some c => !c.messages.isEmpty && resetCond s c

/-- The `.msg-content` text rendered for a composite key, when its div
exists (first match, as `getElementById` returns). -/
def renderedContent (s : AppState) (k : String) : Option String :=
  (s.dom.find? (fun p => p.1 == k)).map (fun p => p.2.content)

/-- Well-formedness tying the pane to the map: the DOM divs and the
`currentMessages` entries carry the same keys in the same order, without
duplicates.  `initialState` satisfies it and every operation preserves it
(the code relies on `getElementById(msgId)` succeeding exactly when the map
has the key). -/
def WF (s : AppState) : Prop :=
  s.dom.map Prod.fst = s.currentMessages.map Prod.fst ∧
    (s.currentMessages.map Prod.fst).Nodup

/-- The merge loop's effect on the state alone (the first component of
`mergeMsgs`), in fold form convenient for induction. -/
def applyMsgs (s : AppState) (ms : List Msg) : AppState :=
  ms.foldl (fun t m => (processMsg t m).1) s

/-- The update rule of the seen-message branch (lines 583-585), as a pure
function on the old displayed text and the newly delivered text: replace
only when the new text is at least as long and differs. -/
def stepContent (old new : String) : String :=
  if old.length ≤ new.length ∧ new ≠ old then new else old

/-- Modelled from the spec text of the amended shake rule: shift all rows
horizontally by the horizontal jitter with the wave shift rule, prepend
`max(verticalJitter, 0)` blank rows, and clip to `height` rows.  Compared
against `shakeEffect` (the code) in the shake-rule theorem. -/
def shakeSpec (lines : List Row) (height width : Nat) (jx jy : Int) : List Row :=
  (List.replicate (max jy 0).toNat (blankRow width) ++
    lines.map (fun line => shiftLine line jx)).take height

/-! ## Theorems -/

theorem shiftLine2_eq_shiftLine (line : Row) (offset : Int) :
    shiftLine2 line offset = shiftLine line offset := by
  unfold shiftLine shiftLine2
  rcases lt_trichotomy offset 0 with h | h | h
  · simp [h, not_lt.mpr h.le, h.ne]
  · subst h; simp
  · simp [h, not_lt.mpr h.le]

theorem shiftLine_length (line : Row) (offset : Int)
    (h : offset.natAbs ≤ line.length) :
    (shiftLine line offset).length = line.length := by
  unfold shiftLine
  by_cases hp : 0 < offset
  · simp only [if_pos hp, List.length_append, List.length_replicate, List.length_take]
    omega
  · by_cases hn : offset < 0
    · simp only [if_neg hp, if_pos hn, List.length_append, List.length_replicate,
        List.length_drop]
      omega
    · simp [hp, hn]

theorem mem_of_mem_enum {α : Type} {l : List α} {p : Nat × α} (hp : p ∈ l.enum) :
    p.2 ∈ l := by
  have h := List.mem_map_of_mem Prod.snd hp
  rwa [List.enum_map_snd] at h

theorem waveEffect_length (lines : List Row) (osc : Nat → Int) :
    (waveEffect lines osc).length = lines.length := by
  simp [waveEffect]

theorem waveEffect_row_length (lines : List Row) (osc : Nat → Int) (width : Nat)
    (hw : ∀ l ∈ lines, l.length = width) (hosc : ∀ y, (osc y).natAbs ≤ 4)
    (hwid : 4 ≤ width) :
    ∀ row ∈ waveEffect lines osc, row.length = width := by
  intro row hrow
  obtain ⟨p, hp, rfl⟩ := List.mem_map.mp hrow
  have hline := hw p.2 (mem_of_mem_enum hp)
  rw [shiftLine_length _ _ (by rw [hline]; exact le_trans (hosc p.1) hwid)]
  exact hline

theorem glitchEffect_length (lines : List Row) (choice : Nat → GlitchRow) :
    (glitchEffect lines choice).length = lines.length := by
  simp [glitchEffect]

theorem glitchEffect_row_length (lines : List Row) (choice : Nat → GlitchRow)
    (width : Nat) (hw : ∀ l ∈ lines, l.length = width)
    (hoff : ∀ y, ((choice y).offset).natAbs ≤ 5) (hwid : 5 ≤ width) :
    ∀ row ∈ glitchEffect lines choice, row.length = width := by
  intro row hrow
  obtain ⟨p, hp, rfl⟩ := List.mem_map.mp hrow
  have hline := hw p.2 (mem_of_mem_enum hp)
  by_cases hglitch : (choice p.1).glitched
  · by_cases hshift : (choice p.1).shiftMode
    · simp only [hglitch, hshift, if_true]
      rw [shiftLine2_eq_shiftLine,
        shiftLine_length _ _ (by rw [hline]; exact le_trans (hoff p.1) hwid)]
      exact hline
    · simp only [hglitch, hshift, if_true, if_false]
      simpa using hline
  · simpa [hglitch] using hline

theorem matrixEffect_length (lines : List Row) (rep bit : Nat → Nat → Bool) :
    (matrixEffect lines rep bit).length = lines.length := by
  simp [matrixEffect]

theorem matrixEffect_row_length (lines : List Row) (rep bit : Nat → Nat → Bool)
    (width : Nat) (hw : ∀ l ∈ lines, l.length = width) :
    ∀ row ∈ matrixEffect lines rep bit, row.length = width := by
  intro row hrow
  obtain ⟨p, hp, rfl⟩ := List.mem_map.mp hrow
  simpa using hw p.2 (mem_of_mem_enum hp)

theorem blinkEffect_length (lines : List Row) (frame : Nat) :
    (blinkEffect lines frame).length = lines.length := by
  simp [blinkEffect]

theorem blinkEffect_row_length (lines : List Row) (frame : Nat) (width : Nat)
    (hw : ∀ l ∈ lines, l.length = width) :
    ∀ row ∈ blinkEffect lines frame, row.length = width := by
  intro row hrow
  obtain ⟨line, hline, rfl⟩ := List.mem_map.mp hrow
  simpa using hw line hline

theorem bounceEffect_length (lines : List Row) (height width b : Nat)
    (hh : lines.length = height) :
    (bounceEffect lines height width b).length = height := by
  simp only [bounceEffect, List.length_take, List.length_append,
    List.length_replicate, hh]
  omega

theorem shakeEffect_length (lines : List Row) (height width : Nat)
    (rx : Fin 5) (ry : Fin 3) (hh : lines.length = height) :
    (shakeEffect lines height width rx ry).length = height := by
  unfold shakeEffect
  by_cases h : 0 < shakeYOf ry <;>
    simp only [h, if_true, if_false, List.length_take, List.length_append,
      List.length_replicate, List.length_map, List.nil_append, hh] <;>
    omega

theorem danceEffect_length (lines : List Row) (height width frame : Nat)
    (sway : Int) (b : Nat) (osc : Nat → Int) (rx : Fin 5) (ry : Fin 3)
    (hh : lines.length = height) :
    (danceEffect lines height width frame sway b osc rx ry).length = height := by
  unfold danceEffect
  rcases h0 : (frame / 20) % 4 with _ | _ | _ | n <;>
    simp [hh, bounceEffect_length _ _ _ _ hh, waveEffect_length,
      shakeEffect_length _ _ _ _ _ hh]

theorem length_filterMap_some {α β : Type} (l : List α) (f : α → β) :
    (l.filterMap (fun a => some (f a))).length = l.length := by
  induction l with
  | nil => rfl
  | cons a l ih => simp [List.filterMap_cons, ih]

theorem pulseEffect_length_shrink (lines : List Row) (height width : Nat)
    (sinNum : Int) (sinDen : Nat) (dup : Nat → Nat → Bool) (keep : Nat → Bool)
    (hh : lines.length = height) (hn : sinNum ≤ 0) :
    (pulseEffect lines height width sinNum sinDen dup keep).length ≤ height := by
  unfold pulseEffect
  simp only [show (decide (0 < sinNum)) = false by simp [not_lt.mpr hn],
    Bool.false_eq_true, if_false, List.nil_append]
  calc (lines.enum.filterMap _).length ≤ lines.enum.length :=
        List.length_filterMap_le _ _
    _ = height := by simp [hh]

theorem pulseEffect_length_stretch (lines : List Row) (height width : Nat)
    (sinNum : Int) (sinDen : Nat) (dup : Nat → Nat → Bool) (keep : Nat → Bool)
    (hh : lines.length = height) (hp : 0 < sinNum) :
    (pulseEffect lines height width sinNum sinDen dup keep).length
      = (Int.fdiv ((height : Int) * sinNum) (20 * (sinDen : Int))).toNat + height := by
  unfold pulseEffect
  simp only [show (decide (0 < sinNum)) = true by simp [hp], if_true]
  simp only [List.length_append, List.length_replicate]
  congr 1
  rw [length_filterMap_some]
  simp [hh]

/-- C5 counterexample: the claim "for every effect ... the produced frame
has at most height rows" fails for `pulseEffect`.  On a 40-row grid of
single-character rows, at a frame whose sine sample is 1/2 (so
`scale = 1.05`), the stretch branch prepends
`Math.floor(40 * 0.05 / 2) = 1` blank row and never clips, producing 41
rows — more than `height = 40`. -/
theorem pulse_exceeds_height_counterexample :
    (pulseEffect (List.replicate 40 [ 'X' ]) 40 1 1 2
        (fun _ _ => false) (fun _ => true)).length = 41 ∧ 40 < 41 := by
  constructor
  · decide
  · decide

/-- C5 (amended): wave, glitch, matrix, blink, bounce, shake and dance
always produce exactly `height` rows; matrix and blink preserve the exact
row width unconditionally, wave does whenever `width ≥ 4` (its offsets lie
in [-4,4]) and glitch whenever `width ≥ 5` (its offsets lie in [-5,5]);
pulse produces at most `height` rows when `scale ≤ 1`, but exactly
`Math.floor(height*(scale-1)/2) + height` rows — exceeding `height` as soon
as that floor is positive — when `scale > 1`, because the stretch branch
never clips. -/
theorem effects_shape
    (lines : List Row) (height width : Nat)
    (hh : lines.length = height) (hw : ∀ l ∈ lines, l.length = width)
    (osc : Nat → Int) (hosc : ∀ y, (osc y).natAbs ≤ 4)
    (gch : Nat → GlitchRow) (hg : ∀ y, ((gch y).offset).natAbs ≤ 5)
    (rep bit : Nat → Nat → Bool) (bframe : Nat)
    (b : Nat) (rx : Fin 5) (ry : Fin 3) (frame : Nat) (sway : Int)
    (sinNum : Int) (sinDen : Nat) (dup : Nat → Nat → Bool) (keep : Nat → Bool) :
    (waveEffect lines osc).length = height ∧
    (4 ≤ width → ∀ row ∈ waveEffect lines osc, row.length = width) ∧
    (glitchEffect lines gch).length = height ∧
    (5 ≤ width → ∀ row ∈ glitchEffect lines gch, row.length = width) ∧
    (matrixEffect lines rep bit).length = height ∧
    (∀ row ∈ matrixEffect lines rep bit, row.length = width) ∧
    (blinkEffect lines bframe).length = height ∧
    (∀ row ∈ blinkEffect lines bframe, row.length = width) ∧
    (bounceEffect lines height width b).length = height ∧
    (shakeEffect lines height width rx ry).length = height ∧
    (danceEffect lines height width frame sway b osc rx ry).length = height ∧
    (sinNum ≤ 0 →
      (pulseEffect lines height width sinNum sinDen dup keep).length ≤ height) ∧
    (0 < sinNum →
      (pulseEffect lines height width sinNum sinDen dup keep).length
        = (Int.fdiv ((height : Int) * sinNum) (20 * (sinDen : Int))).toNat + height) :=
  ⟨by rw [waveEffect_length, hh],
   fun h4 => waveEffect_row_length lines osc width hw hosc h4,
   by rw [glitchEffect_length, hh],
   fun h5 => glitchEffect_row_length lines gch width hw hg h5,
   by rw [matrixEffect_length, hh],
   matrixEffect_row_length lines rep bit width hw,
   by rw [blinkEffect_length, hh],
   blinkEffect_row_length lines bframe width hw,
   bounceEffect_length lines height width b hh,
   shakeEffect_length lines height width rx ry hh,
   danceEffect_length lines height width frame sway b osc rx ry hh,
   fun hn => pulseEffect_length_shrink lines height width sinNum sinDen dup keep hh hn,
   fun hp => pulseEffect_length_stretch lines height width sinNum sinDen dup keep hh hp⟩

/-- Witness for the amended C5 theorem at a concrete 2-by-6 grid with
concrete random draws. -/
theorem effects_shape_witness :
    (waveEffect [[ 'A', 'B', 'C', 'D', 'E', 'F' ], [ 'G', 'H', 'I', 'J', 'K', 'L' ]]
        (fun _ => 3)).length = 2 ∧
    (4 ≤ 6 → ∀ row ∈ waveEffect [[ 'A', 'B', 'C', 'D', 'E', 'F' ],
        [ 'G', 'H', 'I', 'J', 'K', 'L' ]] (fun _ => 3), row.length = 6) ∧
    (glitchEffect [[ 'A', 'B', 'C', 'D', 'E', 'F' ], [ 'G', 'H', 'I', 'J', 'K', 'L' ]]
        (fun _ => ⟨true, true, -5, fun _ => true, fun _ => 0⟩)).length = 2 ∧
    (5 ≤ 6 → ∀ row ∈ glitchEffect [[ 'A', 'B', 'C', 'D', 'E', 'F' ],
        [ 'G', 'H', 'I', 'J', 'K', 'L' ]]
        (fun _ => ⟨true, true, -5, fun _ => true, fun _ => 0⟩), row.length = 6) ∧
    (matrixEffect [[ 'A', 'B', 'C', 'D', 'E', 'F' ], [ 'G', 'H', 'I', 'J', 'K', 'L' ]]
        (fun _ _ => true) (fun _ _ => false)).length = 2 ∧
    (∀ row ∈ matrixEffect [[ 'A', 'B', 'C', 'D', 'E', 'F' ],
        [ 'G', 'H', 'I', 'J', 'K', 'L' ]] (fun _ _ => true) (fun _ _ => false),
        row.length = 6) ∧
    (blinkEffect [[ 'A', 'B', 'C', 'D', 'E', 'F' ], [ 'G', 'H', 'I', 'J', 'K', 'L' ]]
        7).length = 2 ∧
    (∀ row ∈ blinkEffect [[ 'A', 'B', 'C', 'D', 'E', 'F' ],
        [ 'G', 'H', 'I', 'J', 'K', 'L' ]] 7, row.length = 6) ∧
    (bounceEffect [[ 'A', 'B', 'C', 'D', 'E', 'F' ], [ 'G', 'H', 'I', 'J', 'K', 'L' ]]
        2 6 4).length = 2 ∧
    (shakeEffect [[ 'A', 'B', 'C', 'D', 'E', 'F' ], [ 'G', 'H', 'I', 'J', 'K', 'L' ]]
        2 6 4 2).length = 2 ∧
    (danceEffect [[ 'A', 'B', 'C', 'D', 'E', 'F' ], [ 'G', 'H', 'I', 'J', 'K', 'L' ]]
        2 6 25 2 4 (fun _ => 3) 4 2).length = 2 ∧
    ((-1 : Int) ≤ 0 →
      (pulseEffect [[ 'A', 'B', 'C', 'D', 'E', 'F' ], [ 'G', 'H', 'I', 'J', 'K', 'L' ]]
        2 6 (-1) 2 (fun _ _ => true) (fun _ => false)).length ≤ 2) ∧
    ((0 : Int) < -1 →
      (pulseEffect [[ 'A', 'B', 'C', 'D', 'E', 'F' ], [ 'G', 'H', 'I', 'J', 'K', 'L' ]]
        2 6 (-1) 2 (fun _ _ => true) (fun _ => false)).length
        = (Int.fdiv ((2 : Int) * (-1)) (20 * (2 : Int))).toNat + 2) := by
  refine effects_shape _ _ _ rfl ?_ _ ?_ _ ?_ _ _ _ _ _ _ _ _ _ _ _ _
  · decide
  · intro y; decide
  · intro y; decide

/-- C8 counterexample: the vertical jitter of `shakeEffect` is
`Math.floor(Math.random()*3) - 1`, whose possible values are exactly
-1, 0 and 1 — not a uniform draw from [0, 2] as claimed (0 is the value
for the draw `Math.floor(Math.random()*3) = 0`, and 2 is never drawn). -/
theorem shake_vertical_jitter_counterexample :
    shakeYOf 0 = -1 ∧ shakeYOf 1 = 0 ∧ shakeYOf 2 = 1 ∧ ¬ (0 ≤ shakeYOf 0) := by
  refine ⟨rfl, rfl, rfl, ?_⟩
  decide

/-- C8 (amended): on every frame, shake draws one horizontal jitter
uniformly from [-2,2] and one vertical jitter uniformly from [-1,1]; it
shifts all rows horizontally by the same jitter using the wave shift rule,
prepends `max(verticalJitter, 0)` blank rows, and clips the result to
`height` rows. -/
theorem shake_rule (lines : List Row) (height width : Nat)
    (rx : Fin 5) (ry : Fin 3) :
    shakeEffect lines height width rx ry
      = shakeSpec lines height width (shakeXOf rx) (shakeYOf ry) ∧
    -2 ≤ shakeXOf rx ∧ shakeXOf rx ≤ 2 ∧ -1 ≤ shakeYOf ry ∧ shakeYOf ry ≤ 1 := by
  refine ⟨?_, ?_, ?_, ?_, ?_⟩
  · by_cases h : 0 < shakeYOf ry
    · simp only [shakeEffect, shakeSpec, if_pos h, max_eq_left h.le]
    · simp only [shakeEffect, shakeSpec, if_neg h, max_eq_right (not_lt.mp h),
        Int.toNat_zero, List.replicate_zero, List.nil_append]
  · rcases rx with ⟨x, hx⟩; simp only [shakeXOf]; omega
  · rcases rx with ⟨x, hx⟩; simp only [shakeXOf, Fin.val_mk]
    have : (x : Int) < 5 := by exact_mod_cast hx
    omega
  · rcases ry with ⟨y, hy⟩; simp only [shakeYOf]; omega
  · rcases ry with ⟨y, hy⟩; simp only [shakeYOf, Fin.val_mk]
    have : (y : Int) < 3 := by exact_mod_cast hy
    omega

/-- C9: `stopAnimation` after `startAnimation("wave")` within the same tick
restores the display to the unmodified padded base grid — each source row
of the trimmed, newline-split art, right-padded with spaces to the common
maximum width — byte for byte, and leaves no animation active. -/
theorem stop_restores_base_grid (asciiArt : String) (r : EffectRandomness) :
    (stopAnimation (startAnimation (mkASCIIAnimator asciiArt) "wave" r)).displayed
      = (mkASCIIAnimator asciiArt).lines ∧
    (mkASCIIAnimator asciiArt).lines
      = ((asciiArt.trim.splitOn "\n").map String.toList).map
          (fun line => padEnd line (mkASCIIAnimator asciiArt).width) ∧
    (stopAnimation (startAnimation (mkASCIIAnimator asciiArt) "wave" r)).currentAnimation
      = none :=
  ⟨rfl, rfl, rfl⟩

/-! ### Association-list helpers for the reconciler state -/

theorem find?_key_isSome_iff {α : Type} (l : List (String × α)) (k : String) :
    (l.find? (fun p => p.1 == k)).isSome = true ↔ k ∈ l.map Prod.fst := by
  induction l with
  | nil => simp
  | cons a l ih =>
    by_cases h : a.1 = k
    · rw [List.find?_cons_of_pos _ (by simpa using h)]
      simp [h]
    · rw [List.find?_cons_of_neg _ (by simpa using h)]
      simp [ih, Ne.symm h]

theorem find?_key_fst {α : Type} {l : List (String × α)} {k : String}
    {p : String × α} (h : l.find? (fun q => q.1 == k) = some p) : p.1 = k := by
  simpa using List.find?_some h

theorem find?_key_mem_fst {α : Type} {l : List (String × α)} {k : String}
    {p : String × α} (h : l.find? (fun q => q.1 == k) = some p) :
    k ∈ l.map Prod.fst := by
  rw [← find?_key_isSome_iff, h]
  rfl

theorem setNodeContent_map_fst (dom : List (String × MsgNode)) (k c : String) :
    (setNodeContent dom k c).map Prod.fst = dom.map Prod.fst := by
  induction dom with
  | nil => rfl
  | cons a rest ih =>
    by_cases h : a.1 = k
    · cases a
      simp_all [setNodeContent]
    · cases a
      simp_all [setNodeContent]

theorem find?_filter_key_kept {α : Type} {l : List (String × α)}
    {q : String × α → Bool} {k : String}
    (hk : ∀ p ∈ l, p.1 = k → q p = true) :
    (l.filter q).find? (fun p => p.1 == k) = l.find? (fun p => p.1 == k) := by
  induction l with
  | nil => rfl
  | cons a rest ih =>
    have htail : ∀ p ∈ rest, p.1 = k → q p = true :=
      fun p hp => hk p (List.mem_cons_of_mem a hp)
    by_cases hak : a.1 = k
    · rw [List.filter_cons_of_pos (hk a (List.mem_cons_self a rest) hak),
        List.find?_cons_of_pos _ (by simpa using hak),
        List.find?_cons_of_pos _ (by simpa using hak)]
    · by_cases hq : q a = true
      · rw [List.filter_cons_of_pos hq,
          List.find?_cons_of_neg _ (by simpa using hak),
          List.find?_cons_of_neg _ (by simpa using hak)]
        exact ih htail
      · rw [List.filter_cons_of_neg (by simpa using hq),
          List.find?_cons_of_neg _ (by simpa using hak)]
        exact ih htail

theorem find?_filter_key_dropped {α : Type} {l : List (String × α)}
    {q : String × α → Bool} {k : String}
    (hk : ∀ p ∈ l, p.1 = k → q p = false) :
    (l.filter q).find? (fun p => p.1 == k) = none := by
  rw [List.find?_eq_none]
  intro p hp
  obtain ⟨hpl, hq⟩ := List.mem_filter.mp hp
  intro hbeq
  have hpk : p.1 = k := by simpa using hbeq
  rw [hk p hpl hpk] at hq
  exact Bool.false_ne_true hq

theorem setNodeContent_cons_pos {k1 k : String} (m : MsgNode)
    (rest : List (String × MsgNode)) (c : String) (hk : k1 = k) :
    setNodeContent ((k1, m) :: rest) k c
      = (k1, { m with content := c }) :: rest := by
  simp [setNodeContent, hk]

theorem setNodeContent_cons_neg {k1 k : String} (m : MsgNode)
    (rest : List (String × MsgNode)) (c : String) (hk : ¬ k1 = k) :
    setNodeContent ((k1, m) :: rest) k c
      = (k1, m) :: setNodeContent rest k c := by
  simp [setNodeContent, hk]

theorem find?_setNodeContent_self {dom : List (String × MsgNode)} {k : String}
    {n : MsgNode} (c : String)
    (h : dom.find? (fun p => p.1 == k) = some (k, n)) :
    (setNodeContent dom k c).find? (fun p => p.1 == k)
      = some (k, { n with content := c }) := by
  induction dom with
  | nil => simp at h
  | cons a rest ih =>
    obtain ⟨k1, m⟩ := a
    by_cases hk : k1 = k
    · subst hk
      rw [List.find?_cons_of_pos _ (by simp)] at h
      have hm : m = n := by simpa using h
      subst hm
      rw [setNodeContent_cons_pos m rest c rfl,
        List.find?_cons_of_pos _ (by simp)]
    · rw [List.find?_cons_of_neg _ (by simpa using hk)] at h
      rw [setNodeContent_cons_neg m rest c hk,
        List.find?_cons_of_neg _ (by simpa using hk)]
      exact ih h

theorem find?_setNodeContent_other (dom : List (String × MsgNode)) (k j c : String)
    (hne : j ≠ k) :
    (setNodeContent dom k c).find? (fun p => p.1 == j)
      = dom.find? (fun p => p.1 == j) := by
  induction dom with
  | nil => rfl
  | cons a rest ih =>
    obtain ⟨k1, m⟩ := a
    by_cases hk : k1 = k
    · subst hk
      have h1 : ¬ k1 = j := fun h => hne (h ▸ rfl)
      rw [setNodeContent_cons_pos m rest c rfl,
        List.find?_cons_of_neg _ (by simpa using h1),
        List.find?_cons_of_neg _ (by simpa using h1)]
    · rw [setNodeContent_cons_neg m rest c hk]
      by_cases hj : k1 = j
      · subst hj
        rw [List.find?_cons_of_pos _ (by simp),
          List.find?_cons_of_pos _ (by simp)]
      · rw [List.find?_cons_of_neg _ (by simpa using hj),
          List.find?_cons_of_neg _ (by simpa using hj)]
        exact ih

/-! ### Behaviour of the merge-loop body -/

theorem stepContent_length_mono (old new : String) :
    old.length ≤ (stepContent old new).length := by
  unfold stepContent
  split
  · rename_i h; exact h.1
  · exact le_rfl

theorem stepContent_self (new : String) : stepContent new new = new := by
  unfold stepContent
  rw [if_neg (by simp)]

theorem stepContent_idem (old new : String) :
    stepContent (stepContent old new) new = stepContent old new := by
  unfold stepContent
  by_cases h : old.length ≤ new.length ∧ new ≠ old
  · rw [if_pos h, if_neg (by simp)]
  · rw [if_neg h, if_neg h]

theorem processMsg_unseen {s : AppState} {m : Msg}
    (h : msgKey m ∉ s.currentMessages.map Prod.fst) :
    processMsg s m =
      ({ s with currentMessages := s.currentMessages ++ [(msgKey m, m)],
                dom := s.dom ++ [(msgKey m, createdNode m)] }, true) := by
  have hfind : ¬ ((s.currentMessages.find? (fun p => p.1 == msgKey m)).isSome = true) := by
    rw [find?_key_isSome_iff]; exact h
  simp only [processMsg]
  rw [if_neg hfind]

theorem processMsg_seen {s : AppState} {m : Msg} {n : MsgNode}
    (hcm : msgKey m ∈ s.currentMessages.map Prod.fst)
    (hdom : s.dom.find? (fun p => p.1 == msgKey m) = some (msgKey m, n)) :
    processMsg s m =
      (if n.content.length ≤ (m.content.getD "").length ∧ m.content.getD "" ≠ n.content
       then ({ s with dom := setNodeContent s.dom (msgKey m) (m.content.getD "") }, true)
       else (s, false)) := by
  have hfind : (s.currentMessages.find? (fun p => p.1 == msgKey m)).isSome = true :=
    (find?_key_isSome_iff _ _).mpr hcm
  simp only [processMsg, hdom]
  rw [if_pos hfind]

theorem processMsg_immutable (s : AppState) (m : Msg) :
    (processMsg s m).1.processedIds = s.processedIds ∧
    (processMsg s m).1.currentConversationId = s.currentConversationId ∧
    (processMsg s m).1.storedProcessed = s.storedProcessed ∧
    (processMsg s m).1.storedConvId = s.storedConvId ∧
    (processMsg s m).1.placeholderShown = s.placeholderShown := by
  simp only [processMsg]
  split
  · split
    · split
      · exact ⟨rfl, rfl, rfl, rfl, rfl⟩
      · exact ⟨rfl, rfl, rfl, rfl, rfl⟩
    · exact ⟨rfl, rfl, rfl, rfl, rfl⟩
  · exact ⟨rfl, rfl, rfl, rfl, rfl⟩

theorem processMsg_wf {s : AppState} (m : Msg) (h : WF s) : WF (processMsg s m).1 := by
  obtain ⟨hkeys, hnodup⟩ := h
  simp only [processMsg]
  split
  · split
    · split
      · exact ⟨by simpa [setNodeContent_map_fst] using hkeys, hnodup⟩
      · exact ⟨hkeys, hnodup⟩
    · exact ⟨hkeys, hnodup⟩
  · rename_i hnot
    have hk : msgKey m ∉ s.currentMessages.map Prod.fst := by
      rw [← find?_key_isSome_iff]
      simpa using hnot
    constructor
    · simp [hkeys]
    · rw [List.map_append]
      simp only [List.map_cons, List.map_nil]
      rw [List.nodup_append]
      refine ⟨hnodup, List.nodup_singleton _, ?_⟩
      intro a ha hb
      have : a = msgKey m := by simpa using hb
      subst this
      exact hk ha

theorem processMsg_dom_untouched {s : AppState} {m : Msg} {k : String}
    (hne : msgKey m ≠ k) :
    (processMsg s m).1.dom.find? (fun p => p.1 == k)
      = s.dom.find? (fun p => p.1 == k) := by
  simp only [processMsg]
  split
  · split
    · split
      · exact find?_setNodeContent_other s.dom (msgKey m) k _ (Ne.symm hne)
      · rfl
    · rfl
  · show (s.dom ++ [(msgKey m, createdNode m)]).find? _ = _
    rw [List.find?_append]
    have h1 : ([(msgKey m, createdNode m)].find? (fun p => p.1 == k)) = none := by
      simp [List.find?_cons, hne]
    rw [h1]
    cases s.dom.find? (fun p => p.1 == k) <;> rfl

theorem processMsg_cm_mono {s : AppState} (m : Msg) {k : String}
    (h : k ∈ s.currentMessages.map Prod.fst) :
    k ∈ (processMsg s m).1.currentMessages.map Prod.fst := by
  simp only [processMsg]
  split
  · split
    · split
      · exact h
      · exact h
    · exact h
  · simp only [List.map_append]
    exact List.mem_append_left _ h

theorem processMsg_key_mem (s : AppState) (m : Msg) :
    msgKey m ∈ (processMsg s m).1.currentMessages.map Prod.fst := by
  simp only [processMsg]
  split
  · rename_i hseen
    have hmem := (find?_key_isSome_iff _ _).mp hseen
    split
    · split
      · exact hmem
      · exact hmem
    · exact hmem
  · simp

theorem processMsg_dom_hit {s : AppState} {m : Msg} {n : MsgNode}
    (hwf : WF s)
    (hdom : s.dom.find? (fun p => p.1 == msgKey m) = some (msgKey m, n)) :
    (processMsg s m).1.dom.find? (fun p => p.1 == msgKey m)
      = some (msgKey m,
          { n with content := stepContent n.content (m.content.getD "") }) := by
  have hcmmem : msgKey m ∈ s.currentMessages.map Prod.fst :=
    hwf.1 ▸ find?_key_mem_fst hdom
  rw [processMsg_seen hcmmem hdom]
  unfold stepContent
  by_cases h : n.content.length ≤ (m.content.getD "").length ∧ m.content.getD "" ≠ n.content
  · rw [if_pos h, if_pos h]
    exact find?_setNodeContent_self _ hdom
  · rw [if_neg h, if_neg h]
    exact hdom

theorem processMsg_dom_create {s : AppState} {m : Msg}
    (hwf : WF s)
    (hdom : s.dom.find? (fun p => p.1 == msgKey m) = none) :
    (processMsg s m).1.dom.find? (fun p => p.1 == msgKey m)
      = some (msgKey m, createdNode m) := by
  have hnot : msgKey m ∉ s.currentMessages.map Prod.fst := by
    rw [← hwf.1, ← find?_key_isSome_iff]
    simp [hdom]
  rw [processMsg_unseen hnot]
  show (s.dom ++ [(msgKey m, createdNode m)]).find? _ = _
  rw [List.find?_append, hdom]
  simp [List.find?_cons]

theorem processMsg_dom_mono {s : AppState} (m : Msg) {k : String} {n : MsgNode}
    (hwf : WF s)
    (h : s.dom.find? (fun p => p.1 == k) = some (k, n)) :
    ∃ n2, (processMsg s m).1.dom.find? (fun p => p.1 == k) = some (k, n2) ∧
      n2.agentLabel = n.agentLabel ∧ n2.timeLabel = n.timeLabel ∧
      n.content.length ≤ n2.content.length := by
  by_cases hk : msgKey m = k
  · subst hk
    exact ⟨_, processMsg_dom_hit hwf h, rfl, rfl, stepContent_length_mono _ _⟩
  · exact ⟨n, by rw [processMsg_dom_untouched hk]; exact h, rfl, rfl, le_rfl⟩

/-! ### Behaviour of the whole merge loop -/

theorem applyMsgs_nil (s : AppState) : applyMsgs s [] = s := rfl

theorem applyMsgs_cons (s : AppState) (m : Msg) (ms : List Msg) :
    applyMsgs s (m :: ms) = applyMsgs (processMsg s m).1 ms := rfl

theorem mergeMsgs_go (ms : List Msg) (s : AppState) (b : Bool) :
    (ms.foldl (fun acc m =>
      let r := processMsg acc.1 m
      (r.1, acc.2 || r.2)) (s, b)).1 = applyMsgs s ms := by
  induction ms generalizing s b with
  | nil => rfl
  | cons m ms ih => exact ih ((processMsg s m).1) (b || (processMsg s m).2)

theorem mergeMsgs_fst (s : AppState) (ms : List Msg) :
    (mergeMsgs s ms).1 = applyMsgs s ms :=
  mergeMsgs_go ms s false

theorem mergeMsgs_noop (s : AppState) : ∀ ms : List Msg,
    (∀ m ∈ ms, processMsg s m = (s, false)) → mergeMsgs s ms = (s, false) := by
  intro ms
  induction ms with
  | nil => intro _; rfl
  | cons m ms ih =>
    intro h
    have h1 := h m (List.mem_cons_self m ms)
    have h2 : ∀ m2 ∈ ms, processMsg s m2 = (s, false) :=
      fun m2 hm2 => h m2 (List.mem_cons_of_mem m hm2)
    show List.foldl _ ((processMsg s m).1, false || (processMsg s m).2) ms = (s, false)
    rw [h1]
    exact ih h2

theorem applyMsgs_wf (ms : List Msg) : ∀ {s : AppState}, WF s → WF (applyMsgs s ms) := by
  induction ms with
  | nil => intro s h; exact h
  | cons m ms ih => intro s h; exact ih (processMsg_wf m h)

theorem applyMsgs_immutable (ms : List Msg) : ∀ s : AppState,
    (applyMsgs s ms).processedIds = s.processedIds ∧
    (applyMsgs s ms).currentConversationId = s.currentConversationId ∧
    (applyMsgs s ms).storedProcessed = s.storedProcessed ∧
    (applyMsgs s ms).storedConvId = s.storedConvId ∧
    (applyMsgs s ms).placeholderShown = s.placeholderShown := by
  induction ms with
  | nil => intro s; exact ⟨rfl, rfl, rfl, rfl, rfl⟩
  | cons m ms ih =>
    intro s
    obtain ⟨a1, a2, a3, a4, a5⟩ := ih (processMsg s m).1
    obtain ⟨b1, b2, b3, b4, b5⟩ := processMsg_immutable s m
    exact ⟨a1.trans b1, a2.trans b2, a3.trans b3, a4.trans b4, a5.trans b5⟩

theorem applyMsgs_cm_mono (ms : List Msg) {k : String} :
    ∀ {s : AppState}, k ∈ s.currentMessages.map Prod.fst →
      k ∈ (applyMsgs s ms).currentMessages.map Prod.fst := by
  induction ms with
  | nil => intro s h; exact h
  | cons m ms ih => intro s h; exact ih (processMsg_cm_mono m h)

theorem applyMsgs_key_mem (ms : List Msg) :
    ∀ {s : AppState} {m : Msg}, m ∈ ms →
      msgKey m ∈ (applyMsgs s ms).currentMessages.map Prod.fst := by
  induction ms with
  | nil => intro s m h; simp at h
  | cons m0 ms ih =>
    intro s m h
    rcases List.mem_cons.mp h with rfl | h2
    · exact applyMsgs_cm_mono ms (processMsg_key_mem s m)
    · exact ih h2

theorem applyMsgs_dom_untouched {k : String} : ∀ (ms : List Msg) (s : AppState),
    (∀ m ∈ ms, msgKey m ≠ k) →
    (applyMsgs s ms).dom.find? (fun p => p.1 == k)
      = s.dom.find? (fun p => p.1 == k) := by
  intro ms
  induction ms with
  | nil => intro s _; rfl
  | cons m ms ih =>
    intro s h
    rw [applyMsgs_cons, ih _ (fun m2 hm2 => h m2 (List.mem_cons_of_mem m hm2)),
      processMsg_dom_untouched (h m (List.mem_cons_self m ms))]

theorem applyMsgs_dom_mono {k : String} : ∀ (ms : List Msg) (s : AppState) (n : MsgNode),
    WF s → s.dom.find? (fun p => p.1 == k) = some (k, n) →
    ∃ n2, (applyMsgs s ms).dom.find? (fun p => p.1 == k) = some (k, n2) ∧
      n2.agentLabel = n.agentLabel ∧ n2.timeLabel = n.timeLabel ∧
      n.content.length ≤ n2.content.length := by
  intro ms
  induction ms with
  | nil => intro s n _ h; exact ⟨n, h, rfl, rfl, le_rfl⟩
  | cons m ms ih =>
    intro s n hwf h
    obtain ⟨n1, h1, ha, ht, hl⟩ := processMsg_dom_mono m hwf h
    obtain ⟨n2, h2, ha2, ht2, hl2⟩ := ih (processMsg s m).1 n1 (processMsg_wf m hwf) h1
    exact ⟨n2, h2, ha2.trans ha, ht2.trans ht, hl.trans hl2⟩

theorem processMsg_stable_self {s : AppState} {m : Msg} (hwf : WF s) :
    ∃ n, (processMsg s m).1.dom.find? (fun p => p.1 == msgKey m)
        = some (msgKey m, n) ∧
      stepContent n.content (m.content.getD "") = n.content := by
  rcases hfind : s.dom.find? (fun p => p.1 == msgKey m) with _ | p
  · refine ⟨createdNode m, processMsg_dom_create hwf hfind, ?_⟩
    exact stepContent_self (m.content.getD "")
  · obtain ⟨k0, n⟩ := p
    have hk : k0 = msgKey m := find?_key_fst hfind
    subst hk
    exact ⟨_, processMsg_dom_hit hwf hfind, stepContent_idem _ _⟩

theorem applyMsgs_stable : ∀ (ms : List Msg) (s : AppState),
    WF s → (ms.map msgKey).Nodup →
    ∀ m ∈ ms, ∃ n, (applyMsgs s ms).dom.find? (fun p => p.1 == msgKey m)
        = some (msgKey m, n) ∧
      stepContent n.content (m.content.getD "") = n.content := by
  intro ms
  induction ms with
  | nil => intro s _ _ m h; simp at h
  | cons m0 ms ih =>
    intro s hwf hnodup m hm
    have hnodup2 : (msgKey m0 ∉ ms.map msgKey) ∧ (ms.map msgKey).Nodup := by
      rw [List.map_cons, List.nodup_cons] at hnodup
      exact hnodup
    rcases List.mem_cons.mp hm with rfl | h2
    · obtain ⟨n, hn, hfix⟩ := processMsg_stable_self (m := m) hwf
      refine ⟨n, ?_, hfix⟩
      rw [applyMsgs_cons, applyMsgs_dom_untouched ms _ ?_]
      · exact hn
      · intro m2 hm2 heq
        exact hnodup2.1 (heq ▸ List.mem_map_of_mem msgKey hm2)
    · exact ih (processMsg s m0).1 (processMsg_wf m0 hwf) hnodup2.2 m h2

/-! ### Behaviour of the cleanup block -/

theorem gcStep_cm (s : AppState) (ms : List Msg) :
    (gcStep s ms).currentMessages
      = s.currentMessages.filter (fun p => decide (p.1 ∈ ms.map msgKey)) := rfl

theorem gcStep_processedIds (s : AppState) (ms : List Msg) :
    (gcStep s ms).processedIds
      = s.processedIds.filter (fun k => decide
          (k ∉ (s.currentMessages.map Prod.fst).filter
            (fun k2 => decide (k2 ∉ ms.map msgKey)))) := rfl

theorem gcStep_dom (s : AppState) (ms : List Msg) :
    (gcStep s ms).dom
      = s.dom.filter (fun p => decide
          (p.1 ∉ (s.currentMessages.map Prod.fst).filter
            (fun k2 => decide (k2 ∉ ms.map msgKey)))) := rfl

theorem gcStep_other_fields (s : AppState) (ms : List Msg) :
    (gcStep s ms).currentConversationId = s.currentConversationId ∧
    (gcStep s ms).storedProcessed = s.storedProcessed ∧
    (gcStep s ms).storedConvId = s.storedConvId ∧
    (gcStep s ms).placeholderShown = s.placeholderShown :=
  ⟨rfl, rfl, rfl, rfl⟩

theorem mem_toRemove_iff (s : AppState) (ms : List Msg) (k : String) :
    k ∈ (s.currentMessages.map Prod.fst).filter
        (fun k2 => decide (k2 ∉ ms.map msgKey))
      ↔ k ∈ s.currentMessages.map Prod.fst ∧ k ∉ ms.map msgKey := by
  rw [List.mem_filter]
  simp

theorem map_fst_filter_congr {α β : Type} :
    ∀ (l1 : List (String × α)) (l2 : List (String × β)) (p q : String → Bool),
    l1.map Prod.fst = l2.map Prod.fst →
    (∀ k ∈ l1.map Prod.fst, p k = q k) →
    (l1.filter (fun x => p x.1)).map Prod.fst
      = (l2.filter (fun x => q x.1)).map Prod.fst := by
  intro l1
  induction l1 with
  | nil =>
    intro l2 p q hkeys _
    cases l2 with
    | nil => rfl
    | cons b l2 => simp at hkeys
  | cons a l1 ih =>
    intro l2 p q hkeys hpq
    cases l2 with
    | nil => simp at hkeys
    | cons b l2 =>
      simp only [List.map_cons, List.cons.injEq] at hkeys
      obtain ⟨hab, htl⟩ := hkeys
      have hpq1 : p a.1 = q b.1 := by rw [← hab]; exact hpq a.1 (by simp)
      have htail : ∀ k ∈ l1.map Prod.fst, p k = q k :=
        fun k hk => hpq k (List.mem_cons_of_mem _ hk)
      by_cases hp : p a.1 = true
      · rw [@List.filter_cons_of_pos _ (fun x => p x.1) a l1 hp,
          @List.filter_cons_of_pos _ (fun x => q x.1) b l2 (by
            show q b.1 = true
            rw [← hpq1]; exact hp)]
        simp only [List.map_cons]
        rw [hab, ih l2 p q htl htail]
      · rw [@List.filter_cons_of_neg _ (fun x => p x.1) a l1 hp,
          @List.filter_cons_of_neg _ (fun x => q x.1) b l2 (by
            show ¬ q b.1 = true
            rw [← hpq1]; exact hp)]
        exact ih l2 p q htl htail

theorem gcStep_wf {s : AppState} (ms : List Msg) (h : WF s) : WF (gcStep s ms) := by
  obtain ⟨hkeys, hnodup⟩ := h
  constructor
  · rw [gcStep_cm, gcStep_dom]
    refine map_fst_filter_congr s.dom s.currentMessages
      (fun k => decide (k ∉ (s.currentMessages.map Prod.fst).filter
        (fun k2 => decide (k2 ∉ ms.map msgKey))))
      (fun k => decide (k ∈ ms.map msgKey)) hkeys ?_
    intro k hk
    rw [decide_eq_decide]
    rw [hkeys] at hk
    rw [mem_toRemove_iff]
    constructor
    · intro hnot
      by_contra hvalid
      exact hnot ⟨hk, hvalid⟩
    · intro hvalid hmem
      exact hmem.2 hvalid
  · rw [gcStep_cm]
    exact ((List.filter_sublist _).map Prod.fst).nodup hnodup

theorem gcStep_cm_subset {s : AppState} {ms : List Msg} {k : String}
    (h : k ∈ (gcStep s ms).currentMessages.map Prod.fst) :
    k ∈ ms.map msgKey := by
  rw [gcStep_cm] at h
  obtain ⟨p, hp, rfl⟩ := List.mem_map.mp h
  have := (List.mem_filter.mp hp).2
  simpa using this

theorem gcStep_processed_drop {s : AppState} {ms : List Msg} {k : String}
    (hmem : k ∈ s.currentMessages.map Prod.fst) (hout : k ∉ ms.map msgKey) :
    k ∉ (gcStep s ms).processedIds := by
  intro hk
  rw [gcStep_processedIds] at hk
  have h2 := (List.mem_filter.mp hk).2
  rw [decide_eq_true_eq] at h2
  exact h2 ((mem_toRemove_iff s ms k).mpr ⟨hmem, hout⟩)

theorem gcStep_dom_find_kept {s : AppState} {ms : List Msg} {k : String}
    (hin : k ∈ ms.map msgKey) :
    (gcStep s ms).dom.find? (fun p => p.1 == k)
      = s.dom.find? (fun p => p.1 == k) := by
  rw [gcStep_dom]
  apply find?_filter_key_kept
  intro p _ hpk
  rw [decide_eq_true_eq]
  intro hmem
  exact ((mem_toRemove_iff s ms p.1).mp hmem).2 (hpk ▸ hin)

theorem gcStep_dom_find_dropped {s : AppState} {ms : List Msg} {k : String}
    (hwf : WF s) (hout : k ∉ ms.map msgKey) :
    (gcStep s ms).dom.find? (fun p => p.1 == k) = none := by
  rw [gcStep_dom]
  apply find?_filter_key_dropped
  intro p hp hpk
  have hdomk : k ∈ s.dom.map Prod.fst := hpk ▸ List.mem_map_of_mem Prod.fst hp
  have hcmk : k ∈ s.currentMessages.map Prod.fst := hwf.1 ▸ hdomk
  rw [decide_eq_false_iff_not]
  intro hnot
  exact hnot (hpk ▸ (mem_toRemove_iff s ms k).mpr ⟨hcmk, hout⟩)

/-! ### Unfolding lemmas for a whole apply call -/

theorem uCC_none_fst (s : AppState) :
    (updateCurrentConversation s none).1 = clearForEmpty s := rfl

theorem uCC_none (s : AppState) :
    updateCurrentConversation s none = (clearForEmpty s, false) := rfl

theorem uCC_empty (s : AppState) (c : Conversation) (h : c.messages = []) :
    updateCurrentConversation s (some c) = (clearForEmpty s, false) := by
  simp [updateCurrentConversation, h]

theorem uCC_nonempty (s : AppState) (c : Conversation) (h : ¬ c.messages = []) :
    updateCurrentConversation s (some c)
      = (gcStep (applyMsgs
            (if resetCond s c then resetForConversation s (c.id.getD "") else s)
            c.messages) c.messages,
         (mergeMsgs
            (if resetCond s c then resetForConversation s (c.id.getD "") else s)
            c.messages).2) := by
  simp only [updateCurrentConversation]
  rw [if_neg h, mergeMsgs_fst]

theorem uCC_fst_nonempty (s : AppState) (c : Conversation) (h : ¬ c.messages = []) :
    (updateCurrentConversation s (some c)).1
      = gcStep (applyMsgs
          (if resetCond s c then resetForConversation s (c.id.getD "") else s)
          c.messages) c.messages := by
  rw [uCC_nonempty s c h]

theorem resetCond_congr {s1 s2 : AppState} (c : Conversation)
    (h : s1.currentConversationId = s2.currentConversationId) :
    resetCond s1 c = resetCond s2 c := by
  unfold resetCond
  cases c.id with
  | none => rfl
  | some cid => rw [h]

theorem resetCond_of_not_appliesReset {s : AppState} {c : Conversation}
    (hne : c.messages ≠ []) (h : appliesReset s (some c) = false) :
    resetCond s c = false := by
  simp only [appliesReset] at h
  cases hE : c.messages.isEmpty
  · rw [hE] at h
    simpa using h
  · exact absurd (List.isEmpty_iff.mp hE) hne

theorem resetForConversation_wf (s : AppState) (cid : String) :
    WF (resetForConversation s cid) :=
  ⟨rfl, List.nodup_nil⟩

theorem initialState_wf (savedProcessed : Option (List String))
    (savedConv : Option String) : WF (initialState savedProcessed savedConv) :=
  ⟨rfl, List.nodup_nil⟩

theorem processMsg_unseen_fst {s : AppState} {m : Msg}
    (h : msgKey m ∉ s.currentMessages.map Prod.fst) :
    (processMsg s m).1 =
      { s with currentMessages := s.currentMessages ++ [(msgKey m, m)],
               dom := s.dom ++ [(msgKey m, createdNode m)] } := by
  rw [processMsg_unseen h]

theorem applyMsgs_keys : ∀ (ms : List Msg) (s : AppState),
    (∀ m ∈ ms, msgKey m ∉ s.currentMessages.map Prod.fst) →
    (ms.map msgKey).Nodup →
    (applyMsgs s ms).currentMessages.map Prod.fst
      = s.currentMessages.map Prod.fst ++ ms.map msgKey := by
  intro ms
  induction ms with
  | nil => intro s _ _; simp [applyMsgs_nil]
  | cons m ms ih =>
    intro s hdisj hnodup
    have hnodup2 : (msgKey m ∉ ms.map msgKey) ∧ (ms.map msgKey).Nodup := by
      rw [List.map_cons, List.nodup_cons] at hnodup
      exact hnodup
    have hm : msgKey m ∉ s.currentMessages.map Prod.fst :=
      hdisj m (List.mem_cons_self m ms)
    rw [applyMsgs_cons, processMsg_unseen_fst hm]
    rw [ih _ ?_ hnodup2.2]
    · simp
    · intro m2 hm2
      simp only [List.map_append, List.map_cons, List.map_nil]
      rw [List.mem_append]
      rintro (hin | hin)
      · exact hdisj m2 (List.mem_cons_of_mem m hm2) hin
      · have : msgKey m2 = msgKey m := by simpa using hin
        exact hnodup2.1 (this ▸ List.mem_map_of_mem msgKey hm2)

/-! ### Claim theorems for the reconciler -/

/-- C1 counterexample: across successive apply calls the rendered content
length for a fixed composite key can decrease.  The first apply (new
conversation `c1`) renders key `OBSERVER-1000` with content `hello`
(length 5); the second apply carries a different conversation id `c2`,
which triggers the full reset, after which the same key is re-created with
content `a` (length 1) — a strict decrease. -/
theorem content_monotonic_counterexample :
    renderedContent ((updateCurrentConversation (initialState none none)
        (some ⟨some "c1", [⟨"OBSERVER", 1000, some "hello"⟩]⟩)).1) "OBSERVER-1000"
      = some "hello" ∧
    renderedContent ((updateCurrentConversation
        ((updateCurrentConversation (initialState none none)
          (some ⟨some "c1", [⟨"OBSERVER", 1000, some "hello"⟩]⟩)).1)
        (some ⟨some "c2", [⟨"OBSERVER", 1000, some "a"⟩]⟩)).1) "OBSERVER-1000"
      = some "a" ∧
    ("a" : String).length < ("hello" : String).length := by
  refine ⟨by decide, by decide, by decide⟩

/-- C1 (amended): within a fixed conversation — whenever the apply call
performs no conversation reset — the rendered content length for a
composite key that is displayed both before and after the call never
decreases (the seen-message branch replaces content only when the new text
is at least as long); across a reset the key is re-created from scratch and
its length may decrease. -/
theorem content_length_monotonic (s : AppState) (conv : Option Conversation)
    (k t t2 : String) (hwf : WF s)
    (hnoreset : appliesReset s conv = false)
    (h1 : renderedContent s k = some t)
    (h2 : renderedContent (updateCurrentConversation s conv).1 k = some t2) :
    t.length ≤ t2.length := by
  obtain ⟨p, hp, hpt⟩ : ∃ p, s.dom.find? (fun q => q.1 == k) = some p ∧
      p.2.content = t := by
    unfold renderedContent at h1
    cases hf : s.dom.find? (fun q => q.1 == k) with
    | none => rw [hf] at h1; simp at h1
    | some p => rw [hf] at h1; exact ⟨p, rfl, by simpa using h1⟩
  have hpk : p.1 = k := find?_key_fst hp
  have hp2 : s.dom.find? (fun q => q.1 == k) = some (k, p.2) := by
    rw [hp, ← hpk]
  cases conv with
  | none =>
    rw [uCC_none_fst] at h2
    simp [renderedContent, clearForEmpty] at h2
  | some c =>
    by_cases hE : c.messages = []
    · have : (updateCurrentConversation s (some c)).1 = clearForEmpty s := by
        rw [uCC_empty s c hE]
      rw [this] at h2
      simp [renderedContent, clearForEmpty] at h2
    · have hrc : resetCond s c = false := resetCond_of_not_appliesReset hE hnoreset
      have hcond : ¬ (resetCond s c = true) := by rw [hrc]; exact Bool.false_ne_true
      rw [uCC_fst_nonempty s c hE, if_neg hcond] at h2
      obtain ⟨n2, hfind2, _, _, hlen⟩ :=
        applyMsgs_dom_mono c.messages s p.2 hwf hp2
      by_cases hvalid : k ∈ c.messages.map msgKey
      · rw [renderedContent, gcStep_dom_find_kept hvalid, hfind2] at h2
        have ht2 : n2.content = t2 := by simpa using h2
        rw [← hpt, ← ht2]
        exact hlen
      · rw [renderedContent,
          gcStep_dom_find_dropped (applyMsgs_wf c.messages hwf) hvalid] at h2
        simp at h2

/-- Witness for the amended C1 theorem: a second apply of the same
conversation `c1` grows the content of `OBSERVER-1000` from `Hi` (length 2)
to `Hi there` (length 8), and 2 ≤ 8. -/
theorem content_length_monotonic_witness :
    ("Hi" : String).length ≤ ("Hi there" : String).length :=
  content_length_monotonic
    ((updateCurrentConversation (initialState none none)
      (some ⟨some "c1", [⟨"OBSERVER", 1000, some "Hi"⟩]⟩)).1)
    (some ⟨some "c1", [⟨"OBSERVER", 1000, some "Hi there"⟩]⟩)
    "OBSERVER-1000" "Hi" "Hi there"
    ⟨by decide, by decide⟩ (by decide) (by decide) (by decide)

/-- C2 counterexample: an apply whose snapshot carries a differing
conversation id but an empty message list takes the empty-conversation
branch instead of the reset: the new id `c2` is not recorded (the
remembered id stays `c1`) and the persisted processed-id set is left at
`["x"]` instead of being cleared. -/
theorem reset_correctness_counterexample :
    (updateCurrentConversation (initialState (some ["x"]) (some "c1"))
        (some ⟨some "c2", []⟩)).1.currentConversationId = some "c1" ∧
    (updateCurrentConversation (initialState (some ["x"]) (some "c1"))
        (some ⟨some "c2", []⟩)).1.storedProcessed = some ["x"] ∧
    (some "c1" : Option String) ≠ some "c2" := by
  refine ⟨by decide, by decide, by decide⟩

/-- C2 (amended): when the incoming conversation has a non-empty message
list and a non-empty id that differs from the remembered one, the apply
call performs the full reset — the new id is recorded in memory and in
localStorage, the processed-id set is cleared in memory and persisted as
empty — and afterwards the MessageStore holds exactly the snapshot's
composite keys, so its size equals the incoming message count (keys being
pairwise distinct, as the data model requires).  A snapshot whose current
conversation is empty or absent clears the store but records nothing. -/
theorem reset_correctness (s : AppState) (c : Conversation) (cid : String)
    (hid : c.id = some cid) (hcid : cid ≠ "")
    (hdiff : s.currentConversationId ≠ some cid)
    (hne : c.messages ≠ [])
    (hnodup : (c.messages.map msgKey).Nodup) :
    (updateCurrentConversation s (some c)).1.currentConversationId = some cid ∧
    (updateCurrentConversation s (some c)).1.storedConvId = some cid ∧
    (updateCurrentConversation s (some c)).1.storedProcessed = some [] ∧
    (updateCurrentConversation s (some c)).1.processedIds = [] ∧
    (updateCurrentConversation s (some c)).1.currentMessages.map Prod.fst
      = c.messages.map msgKey ∧
    (updateCurrentConversation s (some c)).1.currentMessages.length
      = c.messages.length := by
  have hrc : resetCond s c = true := by
    unfold resetCond
    rw [hid]
    simp [hcid, hdiff]
  have hgd : c.id.getD "" = cid := by rw [hid]; rfl
  rw [uCC_fst_nonempty s c hne, if_pos hrc, hgd]
  have hkeys : (applyMsgs (resetForConversation s cid) c.messages).currentMessages.map
      Prod.fst = c.messages.map msgKey := by
    rw [applyMsgs_keys c.messages (resetForConversation s cid) (by
      intro m _ hmem
      simp [resetForConversation] at hmem) hnodup]
    rfl
  have hcmfilter : (gcStep (applyMsgs (resetForConversation s cid) c.messages)
      c.messages).currentMessages
        = (applyMsgs (resetForConversation s cid) c.messages).currentMessages := by
    rw [gcStep_cm]
    rw [List.filter_eq_self]
    intro p hp
    rw [decide_eq_true_eq]
    rw [← hkeys]
    exact List.mem_map_of_mem Prod.fst hp
  refine ⟨?_, ?_, ?_, ?_, ?_, ?_⟩
  · rw [(gcStep_other_fields _ _).1, (applyMsgs_immutable _ _).2.1]
    rfl
  · rw [(gcStep_other_fields _ _).2.2.1, (applyMsgs_immutable _ _).2.2.2.1]
    rfl
  · rw [(gcStep_other_fields _ _).2.1, (applyMsgs_immutable _ _).2.2.1]
    rfl
  · rw [gcStep_processedIds, (applyMsgs_immutable _ _).1]
    rfl
  · rw [hcmfilter, hkeys]
  · have := congrArg List.length ((hcmfilter.trans rfl).symm ▸ hkeys)
    rw [hcmfilter]
    have h1 := congrArg List.length hkeys
    simpa using h1

/-- Witness for the amended C2 theorem: applying a two-message snapshot for
a fresh conversation id `c2` while `c1` is remembered leaves exactly the
two incoming keys in the store, records `c2`, and persists the cleared
processed set. -/
theorem reset_correctness_witness :
    (updateCurrentConversation (initialState (some ["x"]) (some "c1"))
        (some ⟨some "c2", [⟨"OBSERVER", 1000, some "Hi"⟩,
          ⟨"EGO", 2000, some "Yo"⟩]⟩)).1.currentConversationId = some "c2" ∧
    (updateCurrentConversation (initialState (some ["x"]) (some "c1"))
        (some ⟨some "c2", [⟨"OBSERVER", 1000, some "Hi"⟩,
          ⟨"EGO", 2000, some "Yo"⟩]⟩)).1.storedConvId = some "c2" ∧
    (updateCurrentConversation (initialState (some ["x"]) (some "c1"))
        (some ⟨some "c2", [⟨"OBSERVER", 1000, some "Hi"⟩,
          ⟨"EGO", 2000, some "Yo"⟩]⟩)).1.storedProcessed = some [] ∧
    (updateCurrentConversation (initialState (some ["x"]) (some "c1"))
        (some ⟨some "c2", [⟨"OBSERVER", 1000, some "Hi"⟩,
          ⟨"EGO", 2000, some "Yo"⟩]⟩)).1.processedIds = [] ∧
    (updateCurrentConversation (initialState (some ["x"]) (some "c1"))
        (some ⟨some "c2", [⟨"OBSERVER", 1000, some "Hi"⟩,
          ⟨"EGO", 2000, some "Yo"⟩]⟩)).1.currentMessages.map Prod.fst
      = [⟨"OBSERVER", 1000, some "Hi"⟩,
          (⟨"EGO", 2000, some "Yo"⟩ : Msg)].map msgKey ∧
    (updateCurrentConversation (initialState (some ["x"]) (some "c1"))
        (some ⟨some "c2", [⟨"OBSERVER", 1000, some "Hi"⟩,
          ⟨"EGO", 2000, some "Yo"⟩]⟩)).1.currentMessages.length
      = ([⟨"OBSERVER", 1000, some "Hi"⟩,
          ⟨"EGO", 2000, some "Yo"⟩] : List Msg).length :=
  reset_correctness (initialState (some ["x"]) (some "c1"))
    ⟨some "c2", [⟨"OBSERVER", 1000, some "Hi"⟩, ⟨"EGO", 2000, some "Yo"⟩]⟩
    "c2" rfl (by decide) (by decide) (by decide) (by decide)

/-- C3 counterexample: a processed-id entry that is not tracked in the
MessageStore survives an apply call even though its key is absent from the
snapshot.  Starting from a state whose persisted processed set was loaded
as `["STALE-1"]` with the remembered conversation `c1`, an apply of a `c1`
snapshot that does not contain `STALE-1` still leaves `STALE-1` in the
in-memory processed-id set — the cleanup loop only iterates over
`currentMessages`.  (The MessageStore itself is cleaned correctly.) -/
theorem gc_correct_counterexample :
    (updateCurrentConversation (initialState (some ["STALE-1"]) (some "c1"))
        (some ⟨some "c1", [⟨"OBSERVER", 1000, some "Hi"⟩]⟩)).1.processedIds
      = ["STALE-1"] ∧
    "STALE-1" ∉ convKeys (some ⟨some "c1", [⟨"OBSERVER", 1000, some "Hi"⟩]⟩) := by
  refine ⟨by decide, by decide⟩

/-- C3 (amended): immediately after an apply call, the MessageStore
contains no composite key absent from the snapshot's current message set;
and a key absent from the snapshot that was tracked in the MessageStore
before the call is also dropped from the in-memory processed-id set.
Processed-id entries that were never in the MessageStore are not cleaned
up, and the persisted processed set is not rewritten by garbage
collection. -/
theorem gc_correct (s : AppState) (conv : Option Conversation) (k : String)
    (hk : k ∉ convKeys conv) :
    k ∉ (updateCurrentConversation s conv).1.currentMessages.map Prod.fst ∧
    (k ∈ s.currentMessages.map Prod.fst →
      k ∉ (updateCurrentConversation s conv).1.processedIds) := by
  cases conv with
  | none =>
    rw [uCC_none_fst]
    exact ⟨by simp [clearForEmpty], fun _ => by simp [clearForEmpty]⟩
  | some c =>
    by_cases hE : c.messages = []
    · have heq : (updateCurrentConversation s (some c)).1 = clearForEmpty s := by
        rw [uCC_empty s c hE]
      rw [heq]
      exact ⟨by simp [clearForEmpty], fun _ => by simp [clearForEmpty]⟩
    · have hkeys : k ∉ c.messages.map msgKey := hk
      rw [uCC_fst_nonempty s c hE]
      constructor
      · intro hmem
        exact hkeys (gcStep_cm_subset hmem)
      · intro hbefore
        cases hrc : resetCond s c with
        | true =>
          rw [if_pos rfl, gcStep_processedIds, (applyMsgs_immutable _ _).1]
          intro hmem
          have : k ∈ ([] : List String) := by
            have h2 := List.mem_filter.mp hmem
            simpa [resetForConversation] using h2.1
          simp at this
        | false =>
          rw [if_neg Bool.false_ne_true]
          exact gcStep_processed_drop (applyMsgs_cm_mono c.messages hbefore) hkeys

/-- Witness for the amended C3 theorem: after applying a `c1` snapshot
containing only `EGO-2000` to a state displaying `OBSERVER-1000`, the stale
key `OBSERVER-1000` is gone from both the store and the processed set. -/
theorem gc_correct_witness :
    "OBSERVER-1000" ∉ (updateCurrentConversation
        ((updateCurrentConversation (initialState (some ["OBSERVER-1000"]) (some "c1"))
          (some ⟨some "c1", [⟨"OBSERVER", 1000, some "Hi"⟩]⟩)).1)
        (some ⟨some "c1", [⟨"EGO", 2000, some "Yo"⟩]⟩)).1.currentMessages.map Prod.fst ∧
    ("OBSERVER-1000" ∈ ((updateCurrentConversation
        (initialState (some ["OBSERVER-1000"]) (some "c1"))
        (some ⟨some "c1", [⟨"OBSERVER", 1000, some "Hi"⟩]⟩)).1).currentMessages.map
          Prod.fst →
      "OBSERVER-1000" ∉ (updateCurrentConversation
        ((updateCurrentConversation (initialState (some ["OBSERVER-1000"]) (some "c1"))
          (some ⟨some "c1", [⟨"OBSERVER", 1000, some "Hi"⟩]⟩)).1)
        (some ⟨some "c1", [⟨"EGO", 2000, some "Yo"⟩]⟩)).1.processedIds) :=
  gc_correct
    ((updateCurrentConversation (initialState (some ["OBSERVER-1000"]) (some "c1"))
      (some ⟨some "c1", [⟨"OBSERVER", 1000, some "Hi"⟩]⟩)).1)
    (some ⟨some "c1", [⟨"EGO", 2000, some "Yo"⟩]⟩)
    "OBSERVER-1000" (by decide)

theorem gcStep_idem_of_subset {s : AppState} {ms : List Msg}
    (hsub : ∀ k ∈ s.currentMessages.map Prod.fst, k ∈ ms.map msgKey) :
    gcStep s ms = s := by
  have htoRemove : (s.currentMessages.map Prod.fst).filter
      (fun k => decide (k ∉ ms.map msgKey)) = [] := by
    rw [List.filter_eq_nil_iff]
    intro k hk
    simp [hsub k hk]
  apply AppState.ext
  · rfl
  · rw [gcStep_dom, htoRemove]
    rw [List.filter_eq_self]
    intro p _
    simp
  · rw [gcStep_cm]
    rw [List.filter_eq_self]
    intro p hp
    rw [decide_eq_true_eq]
    exact hsub p.1 (List.mem_map_of_mem Prod.fst hp)
  · rw [gcStep_processedIds, htoRemove]
    rw [List.filter_eq_self]
    intro k _
    simp
  · rfl
  · rfl
  · rfl

theorem uCC_second_noop (s1 : AppState) (c : Conversation)
    (hwf1 : WF s1) (hne : ¬ c.messages = [])
    (hnodup : (c.messages.map msgKey).Nodup)
    (hrc3 : resetCond (gcStep (applyMsgs s1 c.messages) c.messages) c = false) :
    updateCurrentConversation (gcStep (applyMsgs s1 c.messages) c.messages) (some c)
      = (gcStep (applyMsgs s1 c.messages) c.messages, false) := by
  have hwf2 : WF (applyMsgs s1 c.messages) := applyMsgs_wf _ hwf1
  have hwf3 : WF (gcStep (applyMsgs s1 c.messages) c.messages) := gcStep_wf _ hwf2
  have hstable := applyMsgs_stable c.messages s1 hwf1 hnodup
  have hnoop : ∀ m ∈ c.messages,
      processMsg (gcStep (applyMsgs s1 c.messages) c.messages) m
        = (gcStep (applyMsgs s1 c.messages) c.messages, false) := by
    intro m hm
    obtain ⟨n, hfind, hfix⟩ := hstable m hm
    have hkey : msgKey m ∈ c.messages.map msgKey := List.mem_map_of_mem msgKey hm
    have hfind3 : (gcStep (applyMsgs s1 c.messages) c.messages).dom.find?
        (fun p => p.1 == msgKey m) = some (msgKey m, n) := by
      rw [gcStep_dom_find_kept hkey]
      exact hfind
    have hcm3 : msgKey m ∈ (gcStep (applyMsgs s1 c.messages)
        c.messages).currentMessages.map Prod.fst :=
      hwf3.1 ▸ find?_key_mem_fst hfind3
    rw [processMsg_seen hcm3 hfind3, if_neg ?_]
    intro hcondTrue
    have hstep : stepContent n.content (m.content.getD "") = m.content.getD "" := by
      unfold stepContent
      rw [if_pos hcondTrue]
    exact hcondTrue.2 (hfix ▸ hstep).symm
  have hmerge : mergeMsgs (gcStep (applyMsgs s1 c.messages) c.messages) c.messages
      = (gcStep (applyMsgs s1 c.messages) c.messages, false) :=
    mergeMsgs_noop _ _ hnoop
  have happly : applyMsgs (gcStep (applyMsgs s1 c.messages) c.messages) c.messages
      = gcStep (applyMsgs s1 c.messages) c.messages := by
    rw [← mergeMsgs_fst, hmerge]
  have hgcid : gcStep (gcStep (applyMsgs s1 c.messages) c.messages) c.messages
      = gcStep (applyMsgs s1 c.messages) c.messages :=
    gcStep_idem_of_subset (fun k hk => gcStep_cm_subset hk)
  rw [uCC_nonempty _ c hne, if_neg (by rw [hrc3]; exact Bool.false_ne_true),
    happly, hmerge, hgcid]

/-- C4: apply is idempotent.  A second call of
`updateCurrentConversation` with an identical snapshot leaves the whole
state — message map, rendered contents, processed-id set, remembered
conversation id, localStorage — unchanged and performs no new-node append
and no content replacement (the returned mutation flag is false).  The
hypotheses are the invariants the code maintains: the pane and the map
track the same keys, and the snapshot's composite keys are pairwise
distinct as the data model requires. -/
theorem apply_idempotent (s : AppState) (conv : Option Conversation)
    (hwf : WF s) (hnodup : (convKeys conv).Nodup) :
    updateCurrentConversation (updateCurrentConversation s conv).1 conv
      = ((updateCurrentConversation s conv).1, false) := by
  cases conv with
  | none => rfl
  | some c =>
    by_cases hE : c.messages = []
    · rw [uCC_empty s c hE]
      rw [uCC_empty _ c hE]
      rfl
    · have hnodup2 : (c.messages.map msgKey).Nodup := hnodup
      rw [uCC_fst_nonempty s c hE]
      cases hrc : resetCond s c with
      | true =>
        rw [if_pos rfl]
        apply uCC_second_noop _ c (resetForConversation_wf s _) hE hnodup2
        have hccid : (gcStep (applyMsgs (resetForConversation s (c.id.getD ""))
            c.messages) c.messages).currentConversationId = some (c.id.getD "") := by
          rw [(gcStep_other_fields _ _).1, (applyMsgs_immutable _ _).2.1]
          rfl
        unfold resetCond
        cases hcid : c.id with
        | none => rfl
        | some cid0 =>
          have hgd : (c.id.getD "") = cid0 := by rw [hcid]; rfl
          rw [hgd] at hccid
          simp [hccid]
      | false =>
        rw [if_neg Bool.false_ne_true]
        apply uCC_second_noop s c hwf hE hnodup2
        have hccid : (gcStep (applyMsgs s c.messages)
            c.messages).currentConversationId = s.currentConversationId := by
          rw [(gcStep_other_fields _ _).1, (applyMsgs_immutable _ _).2.1]
        rw [resetCond_congr c hccid]
        exact hrc

/-- Witness for C4 at a concrete snapshot: re-applying the same `c1`
snapshot is a no-op with a false mutation flag. -/
theorem apply_idempotent_witness :
    updateCurrentConversation
        (updateCurrentConversation (initialState none none)
          (some ⟨some "c1", [⟨"OBSERVER", 1000, some "Hi"⟩,
            ⟨"EGO", 2000, some "Yo"⟩]⟩)).1
        (some ⟨some "c1", [⟨"OBSERVER", 1000, some "Hi"⟩,
          ⟨"EGO", 2000, some "Yo"⟩]⟩)
      = ((updateCurrentConversation (initialState none none)
          (some ⟨some "c1", [⟨"OBSERVER", 1000, some "Hi"⟩,
            ⟨"EGO", 2000, some "Yo"⟩]⟩)).1, false) :=
  apply_idempotent (initialState none none)
    (some ⟨some "c1", [⟨"OBSERVER", 1000, some "Hi"⟩, ⟨"EGO", 2000, some "Yo"⟩]⟩)
    (initialState_wf none none) (by decide)

/-- C6 counterexample: the render node created for
`{agent:"OBSERVER", timestamp:1000}` is keyed `OBSERVER-1000` — the code
joins agent and timestamp with a hyphen (`` `${msg.agent}-${msg.timestamp}` ``),
not with the colon the claim states; no node keyed `OBSERVER:1000`
exists. -/
theorem composite_key_counterexample :
    ((updateCurrentConversation (initialState none none)
        (some ⟨some "c1", [⟨"OBSERVER", 1000, some "Hi"⟩]⟩)).1.currentMessages.map
          Prod.fst) = ["OBSERVER-1000"] ∧
    renderedContent ((updateCurrentConversation (initialState none none)
        (some ⟨some "c1", [⟨"OBSERVER", 1000, some "Hi"⟩]⟩)).1) "OBSERVER:1000"
      = none ∧
    ("OBSERVER-1000" : String) ≠ "OBSERVER:1000" := by
  refine ⟨by decide, by decide, by decide⟩

/-- C6 (amended): a message's compositeKey is agentId + `-` +
timestampMillis.  Applying the single-message snapshot
`{agent:"OBSERVER", timestamp:1000, content:"Hi"}` creates exactly one
render node keyed `OBSERVER-1000` showing `Hi` (length 2), and a subsequent
apply with content `"Hi there"` updates that same node's text to length 8. -/
theorem composite_key_scenario :
    msgKey ⟨"OBSERVER", 1000, some "Hi"⟩ = "OBSERVER" ++ "-" ++ toString 1000 ∧
    ((updateCurrentConversation (initialState none none)
        (some ⟨some "c1", [⟨"OBSERVER", 1000, some "Hi"⟩]⟩)).1.currentMessages.map
          Prod.fst) = ["OBSERVER-1000"] ∧
    renderedContent ((updateCurrentConversation (initialState none none)
        (some ⟨some "c1", [⟨"OBSERVER", 1000, some "Hi"⟩]⟩)).1) "OBSERVER-1000"
      = some "Hi" ∧
    ("Hi" : String).length = 2 ∧
    ((updateCurrentConversation
        ((updateCurrentConversation (initialState none none)
          (some ⟨some "c1", [⟨"OBSERVER", 1000, some "Hi"⟩]⟩)).1)
        (some ⟨some "c1", [⟨"OBSERVER", 1000, some "Hi there"⟩]⟩)).1.currentMessages.map
          Prod.fst) = ["OBSERVER-1000"] ∧
    renderedContent ((updateCurrentConversation
        ((updateCurrentConversation (initialState none none)
          (some ⟨some "c1", [⟨"OBSERVER", 1000, some "Hi"⟩]⟩)).1)
        (some ⟨some "c1", [⟨"OBSERVER", 1000, some "Hi there"⟩]⟩)).1) "OBSERVER-1000"
      = some "Hi there" ∧
    ("Hi there" : String).length = 8 := by
  refine ⟨by decide, by decide, by decide, by decide, by decide, by decide, by decide⟩

/-- C7 counterexample: the persisted cache is not written on every
mutation.  An apply with an absent current conversation clears the
in-memory processed-id set but leaves the persisted set at `["A-1"]`, so
after the call persisted and in-memory state differ. -/
theorem persisted_cache_counterexample :
    (updateCurrentConversation (initialState (some ["A-1"]) (some "c1"))
        none).1.processedIds = [] ∧
    (updateCurrentConversation (initialState (some ["A-1"]) (some "c1"))
        none).1.storedProcessed = some ["A-1"] ∧
    (some ([] : List String)) ≠ some ["A-1"] := by
  refine ⟨by decide, by decide, by decide⟩

/-- C7 (amended): the persisted processed-id set and conversation id are
written only by the conversation-change reset; after a resetting apply the
persisted values equal the in-memory ones, while every non-resetting apply
(including the empty-conversation clear and garbage collection) leaves the
persisted values untouched — so they may then differ from the in-memory
state. -/
theorem persisted_write_rule (s : AppState) (conv : Option Conversation) :
    (appliesReset s conv = true →
      (updateCurrentConversation s conv).1.storedProcessed
        = some ((updateCurrentConversation s conv).1.processedIds) ∧
      (updateCurrentConversation s conv).1.storedConvId
        = (updateCurrentConversation s conv).1.currentConversationId) ∧
    (appliesReset s conv = false →
      (updateCurrentConversation s conv).1.storedProcessed = s.storedProcessed ∧
      (updateCurrentConversation s conv).1.storedConvId = s.storedConvId) := by
  constructor
  · intro hreset
    cases conv with
    | none => simp [appliesReset] at hreset
    | some c =>
      simp only [appliesReset] at hreset
      have hE : ¬ c.messages = [] := by
        intro h
        rw [h] at hreset
        simp at hreset
      have hrc : resetCond s c = true := by
        cases hiso : c.messages.isEmpty
        · rw [hiso] at hreset
          simpa using hreset
        · exact absurd (List.isEmpty_iff.mp hiso) hE
      rw [uCC_fst_nonempty s c hE, if_pos hrc]
      constructor
      · rw [(gcStep_other_fields _ _).2.1, (applyMsgs_immutable _ _).2.2.1,
          gcStep_processedIds, (applyMsgs_immutable _ _).1]
        rfl
      · rw [(gcStep_other_fields _ _).2.2.1, (applyMsgs_immutable _ _).2.2.2.1,
          (gcStep_other_fields _ _).1, (applyMsgs_immutable _ _).2.1]
        rfl
  · intro hnoreset
    cases conv with
    | none => exact ⟨rfl, rfl⟩
    | some c =>
      by_cases hE : c.messages = []
      · have heq : (updateCurrentConversation s (some c)).1 = clearForEmpty s := by
          rw [uCC_empty s c hE]
        rw [heq]
        exact ⟨rfl, rfl⟩
      · have hrc := resetCond_of_not_appliesReset hE hnoreset
        rw [uCC_fst_nonempty s c hE, if_neg (by rw [hrc]; exact Bool.false_ne_true)]
        exact ⟨by rw [(gcStep_other_fields _ _).2.1, (applyMsgs_immutable _ _).2.2.1],
               by rw [(gcStep_other_fields _ _).2.2.1,
                 (applyMsgs_immutable _ _).2.2.2.1]⟩

/-- Witness for the amended C7 theorem at a resetting apply: persisted and
in-memory values agree afterwards. -/
theorem persisted_write_rule_witness :
    (updateCurrentConversation (initialState (some ["A-1"]) (some "c1"))
        (some ⟨some "c2", [⟨"OBSERVER", 1000, some "Hi"⟩]⟩)).1.storedProcessed
      = some ((updateCurrentConversation (initialState (some ["A-1"]) (some "c1"))
        (some ⟨some "c2", [⟨"OBSERVER", 1000, some "Hi"⟩]⟩)).1.processedIds) ∧
    (updateCurrentConversation (initialState (some ["A-1"]) (some "c1"))
        (some ⟨some "c2", [⟨"OBSERVER", 1000, some "Hi"⟩]⟩)).1.storedConvId
      = (updateCurrentConversation (initialState (some ["A-1"]) (some "c1"))
        (some ⟨some "c2", [⟨"OBSERVER", 1000, some "Hi"⟩]⟩)).1.currentConversationId :=
  (persisted_write_rule (initialState (some ["A-1"]) (some "c1"))
    (some ⟨some "c2", [⟨"OBSERVER", 1000, some "Hi"⟩]⟩)).1 (by decide)

/-- C10: frame effect of a content update.  When the merge loop processes a
message whose composite key is already displayed with a shorter (or
equal-length) different content, only that node's content text changes: its
header spans (agent label and time display, set once at creation) are
unchanged, every other node is untouched, the message map, the processed-id
set, the remembered conversation id and localStorage are untouched, and the
mutation flag reports the update. -/
theorem update_frame_effect (s : AppState) (m : Msg) (n : MsgNode)
    (hcm : msgKey m ∈ s.currentMessages.map Prod.fst)
    (hdom : s.dom.find? (fun p => p.1 == msgKey m) = some (msgKey m, n))
    (hlen : n.content.length ≤ (m.content.getD "").length)
    (hneq : m.content.getD "" ≠ n.content) :
    (processMsg s m).1.dom.find? (fun p => p.1 == msgKey m)
      = some (msgKey m, { agentLabel := n.agentLabel, timeLabel := n.timeLabel,
                          content := m.content.getD "" }) ∧
    (∀ k2, k2 ≠ msgKey m →
      (processMsg s m).1.dom.find? (fun p => p.1 == k2)
        = s.dom.find? (fun p => p.1 == k2)) ∧
    (processMsg s m).1.currentMessages = s.currentMessages ∧
    (processMsg s m).1.processedIds = s.processedIds ∧
    (processMsg s m).1.currentConversationId = s.currentConversationId ∧
    (processMsg s m).1.storedProcessed = s.storedProcessed ∧
    (processMsg s m).1.storedConvId = s.storedConvId ∧
    (processMsg s m).2 = true := by
  have heq : processMsg s m
      = ({ s with dom := setNodeContent s.dom (msgKey m) (m.content.getD "") },
         true) := by
    rw [processMsg_seen hcm hdom, if_pos ⟨hlen, hneq⟩]
  rw [heq]
  refine ⟨find?_setNodeContent_self _ hdom, ?_, rfl, rfl, rfl, rfl, rfl, rfl⟩
  intro k2 hk2
  exact find?_setNodeContent_other s.dom (msgKey m) k2 _ hk2

/-- Witness for C10: updating `OBSERVER-1000` from `Hi` to `Hi there` in a
two-node pane changes only that node's content. -/
theorem update_frame_effect_witness :
    (processMsg
        ⟨false,
          [("OBSERVER-1000", ⟨"☸ OBSERVER", "1000", "Hi"⟩),
            ("EGO-2000", ⟨"◢◤ EGO", "2000", "Yo"⟩)],
          [("OBSERVER-1000", ⟨"OBSERVER", 1000, some "Hi"⟩),
            ("EGO-2000", ⟨"EGO", 2000, some "Yo"⟩)],
          [], some "c1", none, none⟩
        ⟨"OBSERVER", 1000, some "Hi there"⟩).1.dom.find?
        (fun p => p.1 == msgKey ⟨"OBSERVER", 1000, some "Hi there"⟩)
      = some (msgKey ⟨"OBSERVER", 1000, some "Hi there"⟩,
          { agentLabel := "☸ OBSERVER", timeLabel := "1000",
            content := (some "Hi there" : Option String).getD "" }) ∧
    (∀ k2, k2 ≠ msgKey ⟨"OBSERVER", 1000, some "Hi there"⟩ →
      (processMsg
        ⟨false,
          [("OBSERVER-1000", ⟨"☸ OBSERVER", "1000", "Hi"⟩),
            ("EGO-2000", ⟨"◢◤ EGO", "2000", "Yo"⟩)],
          [("OBSERVER-1000", ⟨"OBSERVER", 1000, some "Hi"⟩),
            ("EGO-2000", ⟨"EGO", 2000, some "Yo"⟩)],
          [], some "c1", none, none⟩
        ⟨"OBSERVER", 1000, some "Hi there"⟩).1.dom.find? (fun p => p.1 == k2)
        = (⟨false,
          [("OBSERVER-1000", ⟨"☸ OBSERVER", "1000", "Hi"⟩),
            ("EGO-2000", ⟨"◢◤ EGO", "2000", "Yo"⟩)],
          [("OBSERVER-1000", ⟨"OBSERVER", 1000, some "Hi"⟩),
            ("EGO-2000", ⟨"EGO", 2000, some "Yo"⟩)],
          [], some "c1", none, none⟩ : AppState).dom.find? (fun p => p.1 == k2)) ∧
    (processMsg
        ⟨false,
          [("OBSERVER-1000", ⟨"☸ OBSERVER", "1000", "Hi"⟩),
            ("EGO-2000", ⟨"◢◤ EGO", "2000", "Yo"⟩)],
          [("OBSERVER-1000", ⟨"OBSERVER", 1000, some "Hi"⟩),
            ("EGO-2000", ⟨"EGO", 2000, some "Yo"⟩)],
          [], some "c1", none, none⟩
        ⟨"OBSERVER", 1000, some "Hi there"⟩).2 = true :=
  have h := update_frame_effect
    ⟨false,
      [("OBSERVER-1000", ⟨"☸ OBSERVER", "1000", "Hi"⟩),
        ("EGO-2000", ⟨"◢◤ EGO", "2000", "Yo"⟩)],
      [("OBSERVER-1000", ⟨"OBSERVER", 1000, some "Hi"⟩),
        ("EGO-2000", ⟨"EGO", 2000, some "Yo"⟩)],
      [], some "c1", none, none⟩
    ⟨"OBSERVER", 1000, some "Hi there"⟩
    ⟨"☸ OBSERVER", "1000", "Hi"⟩
    (by decide) (by decide) (by decide) (by decide)
  ⟨h.1, h.2.1, h.2.2.2.2.2.2.2⟩

end Grokgates
